import Mathlib

/-!
Verification development for the travel-expense reconciliation core of the
`te_expense_automation` repository.

Python strings are modelled as `List Char` (a Python `str` is a sequence of
code points).  Python floats are modelled as exact rationals `ℚ`; Python's
built-in `round` (banker's rounding, round-half-to-even) is modelled exactly
on the rationals.  Dynamically-typed Python values (JSON results, database
fields) are modelled by the inductive type `JVal`; optional fields by
`Option`.  All definitions are executable.
-/

/-- Python strings are sequences of code points; we model them as `List Char`. -/
abbrev Str : Type := List Char

/-- Decimal digit test, `0`-`9`, via code points (model of `\d` / `str.isdigit`
for the ASCII digits that the source's regexes use). -/
def isDigitC (c : Char) : Bool := 48 ≤ c.toNat && c.toNat ≤ 57

/-- Whitespace test modelling Python `str` whitespace for the ASCII range
(space, tab, newline, vertical tab, form feed, carriage return). -/
def isWsC (c : Char) : Bool :=
  c.toNat = 32 || c.toNat = 9 || c.toNat = 10 || c.toNat = 11 || c.toNat = 12 || c.toNat = 13

/-- Model of Python `str.strip()`: drop whitespace from both ends. -/
def trimWs (l : Str) : Str :=
  ((l.dropWhile (fun c => isWsC c)).reverse.dropWhile (fun c => isWsC c)).reverse

/-- Model of Python `str.split()` with no argument: split on whitespace runs,
dropping empty pieces. -/
def splitWsGo (cur : Str) (acc : List Str) : Str → List Str
  | [] => if cur = [] then acc.reverse else (cur.reverse :: acc).reverse
  | c :: r =>
    if isWsC c then
      if cur = [] then splitWsGo [] acc r else splitWsGo [] (cur.reverse :: acc) r
    else splitWsGo (c :: cur) acc r

/-- Whitespace split of a Python string (see `splitWsGo`). -/
def splitWs (l : Str) : List Str := splitWsGo [] [] l

/-- Model of Python `str.split(sep)` for a single-character separator:
keeps empty pieces, so `"a\n".split("\n") = ["a", ""]`. -/
def splitOnC (sep : Char) (l : Str) : List Str :=
  l.foldr
    (fun c acc =>
      if c = sep then [] :: acc
      else
        match acc with
        | a :: as => (c :: a) :: as
        | [] => [[c]])
    [[]]

/-- Numeric value of a digit run (most significant digit first). -/
def digitsVal (l : Str) : Nat := l.foldl (fun a c => 10 * a + (c.toNat - 48)) 0

/-- Substring test: model of Python's `needle in hay`. -/
def containsSub (needle hay : Str) : Bool :=
  hay.tails.any (fun t => needle.isPrefixOf t)

/-- ASCII lower-casing of one character (model of `str.lower` on the ASCII
range used by the source). -/
def toLowerC (c : Char) : Char :=
  if 65 ≤ c.toNat && c.toNat ≤ 90 then Char.ofNat (c.toNat + 32) else c

/-- ASCII lower-casing of a Python string. -/
def lowerStr (l : Str) : Str := l.map toLowerC

/-- Round a rational to the nearest integer, ties to even: the exact rule of
Python 3's built-in `round` on decimally-exact inputs. -/
def roundHE (y : ℚ) : ℤ :=
  if y - (⌊y⌋ : ℚ) < 1/2 then ⌊y⌋
  else if 1/2 < y - (⌊y⌋ : ℚ) then ⌊y⌋ + 1
  else if Even ⌊y⌋ then ⌊y⌋ else ⌊y⌋ + 1

/-- Model of Python `round(x, 2)`. -/
def round2 (x : ℚ) : ℚ := (roundHE (100 * x) : ℚ) / 100

/-- Model of Python `round(x, 4)`. -/
def round4 (x : ℚ) : ℚ := (roundHE (10000 * x) : ℚ) / 10000

theorem roundHE_close (y : ℚ) : |y - (roundHE y : ℚ)| ≤ 1/2 := by
  unfold roundHE
  have h0 : (0:ℚ) ≤ y - (⌊y⌋ : ℚ) := sub_nonneg.mpr (Int.floor_le y)
  have h1 : y - (⌊y⌋ : ℚ) < 1 := by
    have := Int.lt_floor_add_one y
    linarith
  by_cases hlt : y - (⌊y⌋:ℚ) < 1/2
  · rw [if_pos hlt, abs_of_nonneg h0]
    linarith
  · rw [if_neg hlt]
    by_cases hgt : (1:ℚ)/2 < y - (⌊y⌋:ℚ)
    · rw [if_pos hgt, abs_of_nonpos (by push_cast; linarith)]
      push_cast
      linarith
    · rw [if_neg hgt]
      have heq : y - (⌊y⌋:ℚ) = 1/2 := le_antisymm (not_lt.mp hgt) (not_lt.mp hlt)
      by_cases hev : Even ⌊y⌋
      · rw [if_pos hev, abs_of_nonneg h0]
        linarith
      · rw [if_neg hev, abs_of_nonpos (by push_cast; linarith)]
        push_cast
        linarith

theorem roundHE_eq_zero_iff (y : ℚ) : roundHE y = 0 ↔ |y| ≤ 1/2 := by
  constructor
  · intro h
    have := roundHE_close y
    rw [h] at this
    simpa using this
  · intro h
    rw [abs_le] at h
    unfold roundHE
    by_cases hy : y < 1/2
    · by_cases hy0 : 0 ≤ y
      · have hf : ⌊y⌋ = 0 := by
          rw [Int.floor_eq_iff]
          push_cast
          constructor <;> linarith
        rw [hf, if_pos (by push_cast; linarith)]
      · push_neg at hy0
        have hf : ⌊y⌋ = -1 := by
          rw [Int.floor_eq_iff]
          push_cast
          constructor <;> linarith
        rw [hf]
        by_cases hc : y - ((-1:ℤ):ℚ) < 1/2
        · exfalso
          push_cast at hc
          linarith [h.1]
        · rw [if_neg hc]
          by_cases hc2 : (1:ℚ)/2 < y - ((-1:ℤ):ℚ)
          · rw [if_pos hc2]
            norm_num
          · have hodd : ¬ Even (-1 : ℤ) := by decide
            rw [if_neg hc2, if_neg hodd]
            norm_num
    · push_neg at hy
      have hy2 : y = 1/2 := le_antisymm h.2 hy
      subst hy2
      have hf : ⌊(1:ℚ)/2⌋ = 0 := by
        rw [Int.floor_eq_iff]
        norm_num
      rw [hf, if_neg (by push_cast; norm_num), if_neg (by push_cast; norm_num),
        if_pos even_zero]

/-- Being an integer number of hundredths (every value that Python's
`round(x, 2)` returns, in the exact model). -/
def Mult100 (q : ℚ) : Prop := ∃ k : ℤ, q = (k : ℚ) / 100

theorem round2_mult100 (x : ℚ) : Mult100 (round2 x) := ⟨roundHE (100 * x), rfl⟩

theorem mult100_add {a b : ℚ} (ha : Mult100 a) (hb : Mult100 b) : Mult100 (a + b) := by
  obtain ⟨k, hk⟩ := ha
  obtain ⟨m, hm⟩ := hb
  exact ⟨k + m, by rw [hk, hm]; push_cast; ring⟩

theorem roundHE_int (k : ℤ) : roundHE (k : ℚ) = k := by
  unfold roundHE
  have hf : ⌊(k:ℚ)⌋ = k := Int.floor_intCast k
  simp [hf]

theorem round2_of_mult100 {q : ℚ} (h : Mult100 q) : round2 q = q := by
  obtain ⟨k, hk⟩ := h
  subst hk
  unfold round2
  have : (100:ℚ) * ((k:ℚ)/100) = (k:ℚ) := by ring
  rw [this, roundHE_int]

theorem round2_close (x : ℚ) : |x - round2 x| ≤ 1/200 := by
  unfold round2
  have h := roundHE_close (100 * x)
  rw [show x - (roundHE (100*x) : ℚ)/100 = (100 * x - (roundHE (100*x) : ℚ))/100 by ring,
    abs_div]
  rw [show |(100:ℚ)| = 100 by norm_num]
  linarith

theorem round2_eq_zero_iff (x : ℚ) : round2 x = 0 ↔ |x| ≤ 1/200 := by
  unfold round2
  constructor
  · intro h
    have hk : roundHE (100 * x) = 0 := by
      field_simp at h
      exact_mod_cast h
    have := (roundHE_eq_zero_iff (100 * x)).mp hk
    rw [abs_mul, abs_of_nonneg (by norm_num : (0:ℚ) ≤ 100)] at this
    linarith
  · intro h
    have : |100 * x| ≤ 1/2 := by
      rw [abs_mul, abs_of_nonneg (by norm_num : (0:ℚ) ≤ 100)]
      linarith
    rw [(roundHE_eq_zero_iff (100 * x)).mpr this]
    norm_num

/-! ### Python/JSON value model -/

/-- Model of the dynamically-typed Python values flowing through the source:
values decoded from JSON by `json.loads` as well as database field values. -/
inductive JVal where
  | null : JVal
  | bool (b : Bool) : JVal
  | num (q : ℚ) : JVal
  | str (s : Str) : JVal
  | arr (items : List JVal) : JVal
  | obj (fields : List (Str × JVal)) : JVal

/-- Python truthiness of a `JVal` (`None`, `False`, `0`, `""`, `[]`, and
an empty dict are falsy). -/
def jTruthy : JVal → Bool
  | .null => false
  | .bool b => b
  | .num q => decide (q ≠ 0)
  | .str s => !s.isEmpty
  | .arr l => !l.isEmpty
  | .obj f => !f.isEmpty

/-- Model of `dict.get(key)` on a decoded JSON object: Python's `json.loads`
keeps the last of duplicate keys, and `.get` of an absent key or of a key
bound to JSON `null` both produce `None`. -/
def pyGetV (fields : List (Str × JVal)) (key : Str) : Option JVal :=
  match fields.foldl (fun acc kv => if kv.1 = key then some kv.2 else acc)
      (none : Option JVal) with
  | some JVal.null => none
  | r => r

/-- Truthiness of an optional Python value (`None` is falsy). -/
def jTruthyOpt : Option JVal → Bool
  | none => false
  | some v => jTruthy v

/-- Python's `a or b or ...` expression over optional values: the first
truthy value, otherwise the last value of the chain. -/
def pyOrChain : List (Option JVal) → Option JVal
  | [] => none
  | [x] => x
  | x :: xs => if jTruthyOpt x then x else pyOrChain xs

/-! ### Model of Python `float(str)` coercion -/

/-- Numeric value of the digits of an optionally-empty run, as an integer. -/
def digitsValZ (l : Str) : ℤ := (digitsVal l : ℤ)

/-- Helper for `pyFloat`: parse an optional exponent suffix; returns the
exponent or fails when the suffix is malformed. -/
def pyFloatExp (l : Str) : Option ℤ :=
  match l with
  | [] => some 0
  | c :: r =>
    if c = 'e' || c = 'E' then
      let (sgn, r1) : ℤ × Str :=
        match r with
        | '+' :: t => (1, t)
        | '-' :: t => (-1, t)
        | _ => (1, r)
      let ds := r1.takeWhile isDigitC
      let rest := r1.dropWhile isDigitC
      if ds = [] ∨ rest ≠ [] then none else some (sgn * digitsValZ ds)
    else none

/-- Model of Python `float(s)` on an already-stripped string: optional sign,
then `digits`, `digits.digits`, `digits.`, or `.digits`, with an optional
decimal exponent.  (The rarely-used `inf`/`nan` spellings and digit-group
underscores accepted by CPython are outside the model; every input in the
source's domain is a plain decimal number.)  Returns `none` where `float`
raises `ValueError`. -/
def pyFloat (l : Str) : Option ℚ :=
  let (sgn, l1) : ℚ × Str :=
    match l with
    | '+' :: r => (1, r)
    | '-' :: r => (-1, r)
    | _ => (1, l)
  let ip := l1.takeWhile isDigitC
  let r1 := l1.dropWhile isDigitC
  let core : Option (ℚ × Str) :=
    match r1 with
    | '.' :: r2 =>
      let fp := r2.takeWhile isDigitC
      let r3 := r2.dropWhile isDigitC
      if ip = [] ∧ fp = [] then none
      else some ((digitsVal ip : ℚ) + (digitsVal fp : ℚ) / (10 ^ fp.length : ℚ), r3)
    | _ =>
      if ip = [] then none else some ((digitsVal ip : ℚ), r1)
  match core with
  | none => none
  | some (m, rest) =>
    match pyFloatExp rest with
    | none => none
    | some e =>
      if 0 ≤ e then some (sgn * m * (10 ^ e.toNat : ℚ))
      else some (sgn * m / (10 ^ (-e).toNat : ℚ))

/-! ### Model of Python `json.loads` -/

/-- JSON whitespace (RFC 8259, as accepted by Python's `json`). -/
def isJsonWs (c : Char) : Bool :=
  c = ' ' || c = '\t' || c = '\n' || c = '\r'

/-- Hexadecimal digit value for `\uXXXX` escapes, or `none`. -/
def hexVal (c : Char) : Option Nat :=
  if 48 ≤ c.toNat ∧ c.toNat ≤ 57 then some (c.toNat - 48)
  else if 97 ≤ c.toNat ∧ c.toNat ≤ 102 then some (c.toNat - 87)
  else if 65 ≤ c.toNat ∧ c.toNat ≤ 70 then some (c.toNat - 55)
  else none

/-- Parse the body of a JSON string literal (opening quote already consumed);
returns the decoded characters and the remaining input. -/
def jsonStr : Nat → Str → Option (Str × Str)
  | 0, _ => none
  | _ + 1, [] => none
  | fuel + 1, c :: r =>
    if c = '"' then some ([], r)
    else if c = '\\' then
      match r with
      | [] => none
      | e :: r2 =>
        let dec : Option (Char × Str) :=
          if e = '"' then some ('"', r2)
          else if e = '\\' then some ('\\', r2)
          else if e = '/' then some ('/', r2)
          else if e = 'b' then some ('\x08', r2)
          else if e = 'f' then some ('\x0c', r2)
          else if e = 'n' then some ('\n', r2)
          else if e = 'r' then some ('\r', r2)
          else if e = 't' then some ('\t', r2)
          else if e = 'u' then
            match r2 with
            | h1 :: h2 :: h3 :: h4 :: r3 =>
              match hexVal h1, hexVal h2, hexVal h3, hexVal h4 with
              | some a, some b, some c3, some d =>
                some (Char.ofNat (((a * 16 + b) * 16 + c3) * 16 + d), r3)
              | _, _, _, _ => none
            | _ => none
          else none
        match dec with
        | none => none
        | some (ch, r3) =>
          match jsonStr fuel r3 with
          | none => none
          | some (s, rest) => some (ch :: s, rest)
    else if c.toNat < 32 then none
    else
      match jsonStr fuel r with
      | none => none
      | some (s, rest) => some (c :: s, rest)

/-- Parse a JSON number at the head of the input (grammar of RFC 8259,
which is what Python's `json.loads` accepts for ordinary numbers). -/
def jsonNum (l : Str) : Option (ℚ × Str) :=
  let (sgn, l1) : ℚ × Str :=
    match l with
    | '-' :: r => (-1, r)
    | _ => (1, l)
  let ip := l1.takeWhile isDigitC
  let r1 := l1.dropWhile isDigitC
  if ip = [] then none
  else if ip.length > 1 ∧ ip.headD '0' = '0' then none
  else
    let (fq, r2) : ℚ × Str :=
      match r1 with
      | '.' :: rf =>
        let fp := rf.takeWhile isDigitC
        ((digitsVal fp : ℚ) / (10 ^ fp.length : ℚ), rf.dropWhile isDigitC)
      | _ => (0, r1)
    let fracOk : Bool :=
      match r1 with
      | '.' :: rf => rf.takeWhile isDigitC ≠ []
      | _ => true
    if ¬ fracOk then none
    else
      match r2 with
      | e :: r3 =>
        if e = 'e' || e = 'E' then
          let (es, r4) : ℤ × Str :=
            match r3 with
            | '+' :: t => (1, t)
            | '-' :: t => (-1, t)
            | _ => (1, r3)
          let ed := r4.takeWhile isDigitC
          if ed = [] then none
          else
            let ex : ℤ := es * digitsValZ ed
            let m : ℚ := sgn * ((digitsVal ip : ℚ) + fq)
            if 0 ≤ ex then some (m * (10 ^ ex.toNat : ℚ), r4.dropWhile isDigitC)
            else some (m / (10 ^ (-ex).toNat : ℚ), r4.dropWhile isDigitC)
        else some (sgn * ((digitsVal ip : ℚ) + fq), r2)
      | [] => some (sgn * ((digitsVal ip : ℚ) + fq), [])

mutual

/-- Parse one JSON value at the head of the input. -/
def jsonVal : Nat → Str → Option (JVal × Str)
  | 0, _ => none
  | fuel + 1, l =>
    match l.dropWhile isJsonWs with
    | [] => none
    | c :: r =>
      if c = '{' then
        match (r.dropWhile isJsonWs) with
        | '}' :: r2 => some (.obj [], r2)
        | _ => jsonMembers fuel (r.dropWhile isJsonWs) []
      else if c = '[' then
        match (r.dropWhile isJsonWs) with
        | ']' :: r2 => some (.arr [], r2)
        | _ => jsonElems fuel (r.dropWhile isJsonWs) []
      else if c = '"' then
        match jsonStr (r.length + 1) r with
        | none => none
        | some (s, rest) => some (.str s, rest)
      else if c = 't' then
        match l.dropWhile isJsonWs with
        | 't' :: 'r' :: 'u' :: 'e' :: rest => some (.bool true, rest)
        | _ => none
      else if c = 'f' then
        match l.dropWhile isJsonWs with
        | 'f' :: 'a' :: 'l' :: 's' :: 'e' :: rest => some (.bool false, rest)
        | _ => none
      else if c = 'n' then
        match l.dropWhile isJsonWs with
        | 'n' :: 'u' :: 'l' :: 'l' :: rest => some (.null, rest)
        | _ => none
      else
        match jsonNum (c :: r) with
        | none => none
        | some (q, rest) => some (.num q, rest)

/-- Parse the members of a JSON object (after `{`, at least one member). -/
def jsonMembers : Nat → Str → List (Str × JVal) → Option (JVal × Str)
  | 0, _, _ => none
  | fuel + 1, l, acc =>
    match l.dropWhile isJsonWs with
    | '"' :: r =>
      match jsonStr (r.length + 1) r with
      | none => none
      | some (k, r2) =>
        match r2.dropWhile isJsonWs with
        | ':' :: r3 =>
          match jsonVal fuel r3 with
          | none => none
          | some (v, r4) =>
            match r4.dropWhile isJsonWs with
            | ',' :: r5 => jsonMembers fuel r5 (acc ++ [(k, v)])
            | '}' :: r5 => some (.obj (acc ++ [(k, v)]), r5)
            | _ => none
        | _ => none
    | _ => none

/-- Parse the elements of a JSON array (after `[`, at least one element). -/
def jsonElems : Nat → Str → List JVal → Option (JVal × Str)
  | 0, _, _ => none
  | fuel + 1, l, acc =>
    match jsonVal fuel l with
    | none => none
    | some (v, r) =>
      match r.dropWhile isJsonWs with
      | ',' :: r2 => jsonElems fuel r2 (acc ++ [v])
      | ']' :: r2 => some (.arr (acc ++ [v]), r2)
      | _ => none

end

/-- Model of Python `json.loads`: parse one JSON document; trailing
non-whitespace or any syntax error gives `none` (where Python raises
`json.JSONDecodeError`, which every caller in the source catches). -/
def jsonLoads (l : Str) : Option JVal :=
  match jsonVal (2 * l.length + 2) l with
  | none => none
  | some (v, rest) =>
    if rest.dropWhile isJsonWs = [] then some v else none

/-! ### Field Normalizer (src/build_zip/backend/app/services/matching.py) -/

/-- Lift an optional model float back into a Python value (feeding a previous
result of `normalize_amount` back in: `None` or a float). -/
def ofOptNum : Option ℚ → JVal
  | none => .null
  | some q => .num q

/-- Model of the `float(a)` coercion inside `normalize_amount`: floats pass
through, strings go through `float(str)` (which strips whitespace), booleans
coerce to 0/1, everything else raises (`None`, lists, dicts). -/
def coerceNA : JVal → Option ℚ
  | .num q => some q
  | .str s => pyFloat (trimWs s)
  | .bool b => some (if b then 1 else 0)
  | _ => none

/-- Model of `normalize_amount` (matching.py lines 25-29):
`round(float(a), 2)` with any exception mapped to `None`. -/
def normalize_amount (a : JVal) : Option ℚ := (coerceNA a).map round2

/-- Lower-case-alphanumeric test: the character class `[a-z0-9]` of
`MERCHANT_SANITIZE_RE` in matching.py. -/
def isLowAl (c : Char) : Bool :=
  (97 ≤ c.toNat && c.toNat ≤ 122) || (48 ≤ c.toNat && c.toNat ≤ 57)

/-- Replace every maximal run of characters satisfying `p` by a single
space: the behaviour of `re.sub(pattern+, " ", s)` for a character-class
pattern.  The flag records whether we are inside such a run. -/
def squashRuns (p : Char → Bool) : Bool → Str → Str
  | _, [] => []
  | inRun, c :: r =>
    if p c then
      if inRun then squashRuns p true r else ' ' :: squashRuns p true r
    else c :: squashRuns p false r

/-- Model of `normalize_merchant` (matching.py lines 18-23): `None` and `""`
map to `None` (both are falsy); otherwise lower-case, strip, replace runs
of `[^a-z0-9]` by single spaces, collapse whitespace runs, strip. -/
def normalize_merchant (name : Option Str) : Option Str :=
  match name with
  | none => none
  | some s =>
    if s = [] then none
    else
      let s1 := trimWs (lowerStr s)
      let s2 := squashRuns (fun c => !isLowAl c) false s1
      let s3 := squashRuns isWsC false s2
      some (trimWs s3)

/-! ### Model of `_parse_date` (matching.py lines 35-72) -/

/-- A calendar date, as produced by Python's `datetime.date`. -/
structure SimpleDate where
  year : Nat
  month : Nat
  day : Nat
deriving DecidableEq, Repr

/-- Proleptic-Gregorian leap-year rule (Python `datetime`). -/
def isLeap (y : Nat) : Bool := (y % 4 = 0 && y % 100 ≠ 0) || y % 400 = 0

/-- Days in a month (Python `datetime` validation). -/
def daysInMonth (y m : Nat) : Nat :=
  if m = 2 then (if isLeap y then 29 else 28)
  else if m = 4 ∨ m = 6 ∨ m = 9 ∨ m = 11 then 30
  else 31

/-- Whether `datetime.date(y, m, d)` can be constructed
(`MINYEAR = 1`, `MAXYEAR = 9999`). -/
def validDate (y m d : Nat) : Bool :=
  1 ≤ y && y ≤ 9999 && 1 ≤ m && m ≤ 12 && 1 ≤ d && d ≤ daysInMonth y m

/-- Day-count of a date (days since 1970-01-01, Hinnant's civil-from-days
algorithm); models `timedelta.days` of a difference of Python dates and the
field-lexicographic order of dates. -/
def rataDie (dt : SimpleDate) : ℤ :=
  let y : ℤ := if dt.month ≤ 2 then (dt.year : ℤ) - 1 else (dt.year : ℤ)
  let era : ℤ := (if 0 ≤ y then y else y - 399) / 400
  let yoe : ℤ := y - era * 400
  let mp : ℤ := ((dt.month : ℤ) + 9) % 12
  let doy : ℤ := (153 * mp + 2) / 5 + (dt.day : ℤ) - 1
  let doe : ℤ := yoe * 365 + yoe / 4 - yoe / 100 + doy
  era * 146097 + doe - 719468

/-- Field kinds of the `strptime` directives used by `_parse_date`. -/
inductive FK where
  | d : FK
  | m : FK
  | y2 : FK
  | y4 : FK

/-- Read one `strptime` numeric field at the head of the input, following
CPython's `_strptime` regexes: `%d` is `3[01]|[12]\d|0[1-9]|[1-9]`, `%m` is
`1[0-2]|0[1-9]|[1-9]`, `%y` is exactly two digits, `%Y` exactly four. -/
def readField (k : FK) (l : Str) : Option (Nat × Str) :=
  let ds := l.takeWhile isDigitC
  let rest := l.dropWhile isDigitC
  let v := digitsVal ds
  match k with
  | .d =>
    if ds.length = 1 ∧ 1 ≤ v then some (v, rest)
    else if ds.length = 2 ∧ 1 ≤ v ∧ v ≤ 31 then some (v, rest)
    else none
  | .m =>
    if ds.length = 1 ∧ 1 ≤ v then some (v, rest)
    else if ds.length = 2 ∧ 1 ≤ v ∧ v ≤ 12 then some (v, rest)
    else none
  | .y2 => if ds.length = 2 then some (v, rest) else none
  | .y4 => if ds.length = 4 then some (v, rest) else none

/-- CPython's `%y` expansion inside `strptime`: `00-68 → 2000+y`,
`69-99 → 1900+y` (the POSIX rule). -/
def posixY2 (y : Nat) : Nat := if y ≤ 68 then 2000 + y else 1900 + y

/-- One `strptime(s, "%a-%b-%c")` attempt for a three-field dash-separated
pattern, including `datetime`'s range validation of the constructed date. -/
def strptime3 (k1 k2 k3 : FK) (toYMD : Nat → Nat → Nat → Nat × Nat × Nat)
    (l : Str) : Option SimpleDate :=
  match readField k1 l with
  | none => none
  | some (v1, r1) =>
    match r1 with
    | c1 :: r1b =>
      if c1 = '-' then
        match readField k2 r1b with
        | none => none
        | some (v2, r2) =>
          match r2 with
          | c2 :: r2b =>
            if c2 = '-' then
              match readField k3 r2b with
              | none => none
              | some (v3, r3) =>
                if r3 = [] then
                  let (y, m, d) := toYMD v1 v2 v3
                  if validDate y m d then some ⟨y, m, d⟩ else none
                else none
            else none
          | [] => none
      else none
    | [] => none

/-- The dead-in-practice two-digit-year heuristic written in `_parse_date`
itself (lines 60-66): it fires only when `strptime` produced `year < 100`,
which needs a zero-padded `%Y` match; `dt_obj.replace(year=...)` re-validates. -/
def parseHeuristic (dt : SimpleDate) : Option SimpleDate :=
  if dt.year < 100 then
    let y2 := if dt.year ≤ 79 then dt.year + 2000 else dt.year + 1900
    if validDate y2 dt.month dt.day then some ⟨y2, dt.month, dt.day⟩ else none
  else some dt

/-- One full pattern attempt inside the `for p in patterns` loop: `strptime`
then the year heuristic; an exception anywhere is suppressed (the attempt
just fails). -/
def attemptPat (k1 k2 k3 : FK) (toYMD : Nat → Nat → Nat → Nat × Nat × Nat)
    (l : Str) : Option SimpleDate :=
  (strptime3 k1 k2 k3 toYMD l).bind parseHeuristic

/-- Model of `datetime.date.fromisoformat` on the dash-normalized strings
that can reach the fallback: exactly `YYYY-MM-DD` with a valid date.  (The
extra compact forms accepted by newer CPython cannot be produced here, since
every input that reaches the fallback failed the dashed patterns.) -/
def fromIso (l : Str) : Option SimpleDate :=
  match l with
  | [y1, y2, y3, y4, '-', m1, m2, '-', d1, d2] =>
    if isDigitC y1 && isDigitC y2 && isDigitC y3 && isDigitC y4 &&
        isDigitC m1 && isDigitC m2 && isDigitC d1 && isDigitC d2 then
      let y := digitsVal [y1, y2, y3, y4]
      let m := digitsVal [m1, m2]
      let d := digitsVal [d1, d2]
      if validDate y m d then some ⟨y, m, d⟩ else none
    else none
  | _ => none

/-- The pattern cascade of `_parse_date` on the separator-normalized string:
`%Y-%m-%d` (listed twice in the source, a harmless duplicate), `%d-%m-%Y`,
`%d-%m-%y`; the three `/`-separated patterns can never match because every
`/` was replaced by `-`; finally the `fromisoformat` fallback. -/
def parseCore (l : Str) : Option SimpleDate :=
  match attemptPat .y4 .m .d (fun a b c => (a, b, c)) l with
  | some dt => some dt
  | none =>
    match attemptPat .d .m .y4 (fun a b c => (c, b, a)) l with
    | some dt => some dt
    | none =>
      match attemptPat .d .m .y2 (fun a b c => (posixY2 c, b, a)) l with
      | some dt => some dt
      | none => fromIso l

/-- Input universe of `_parse_date`: `None`, a non-string value, or a
string. -/
inductive PyDateInput where
  | null : PyDateInput
  | notStr : PyDateInput
  | s (v : Str) : PyDateInput

/-- Outcome of a `_parse_date` call: a normal return or a raised exception. -/
inductive DateOutcome where
  | raised : DateOutcome
  | ok (d : Option SimpleDate) : DateOutcome
deriving DecidableEq, Repr

/-- Model of `_parse_date` (matching.py lines 35-72).  `None`, falsy and
non-string inputs return `None`; otherwise the first whitespace token is
taken — `val.strip().split()[0]` raises `IndexError` on a whitespace-only
string — separators `.` and `/` are normalized to `-`, and the pattern
cascade runs. -/
def parseDate (val : PyDateInput) : DateOutcome :=
  match val with
  | .null => .ok none
  | .notStr => .ok none
  | .s v =>
    if v = [] then .ok none
    else
      match splitWs v with
      | [] => .raised
      | tok :: _ =>
        let sNorm := tok.map (fun c => if c = '.' ∨ c = '/' then '-' else c)
        .ok (parseCore sNorm)

/-! ### Pairwise Scorer and Match Proposer (matching.py lines 31-190) -/

/-- An expense row as consumed by `score_match` / `propose_matches`. -/
structure Expense where
  id : Int
  merchant : Option Str
  amount : Option ℚ
  date : Option Str

/-- A receipt row as consumed by `score_match` / `propose_matches`. -/
structure Receipt where
  id : Int
  extracted_merchant : Option Str
  extracted_vendor_name : Option Str
  extracted_amount : Option ℚ
  extracted_date : Option Str
  extracted_service_start : Option Str
  extracted_service_end : Option Str
  status : Option Str
  error_message : Option Str

/-- Truthiness of an optional string field (`None` and `""` are falsy). -/
def truthyStr : Option Str → Bool
  | none => false
  | some s => !s.isEmpty

/-- The amount component of `score_match` (matching.py lines 84-99), given
the two normalized amounts: 0 for a zero expense amount, 1 within 0.5
currency units, otherwise `max(0, 1 - (delta/amount)/0.05)`. -/
def amountScore (exp_amount rec_amount : ℚ) : ℚ :=
  if exp_amount = 0 then 0
  else if |exp_amount - rec_amount| ≤ 1/2 then 1
  else max 0 (1 - (|exp_amount - rec_amount| / exp_amount) / (5/100))

/-- The single-date branch of the date component (matching.py lines 124-133):
1.0 / 0.6 / 0.3 by day distance 0 / 1 / 2, else 0. -/
def singleDateScore (recD expD : SimpleDate) : ℚ :=
  let dd := |rataDie recD - rataDie expD|
  if dd = 0 then 1 else if dd = 1 then 3/5 else if dd = 2 then 3/10 else 0

/-- The service-range branch of the date component (matching.py lines
106-123): 1.0 inside the inclusive range, else 0.6 / 0.3 at distance 1 / 2
days from the nearer boundary, else 0. -/
def rangeDateScore (startD endD expD : SimpleDate) : ℚ :=
  if rataDie startD ≤ rataDie expD ∧ rataDie expD ≤ rataDie endD then 1
  else
    let dd := if rataDie expD < rataDie startD
      then rataDie startD - rataDie expD
      else rataDie expD - rataDie endD
    if dd = 1 then 3/5 else if dd = 2 then 3/10 else 0

/-- The date component of `score_match` (matching.py lines 101-135): the
whole block is wrapped in `try/except`, so a raised `IndexError` from
`_parse_date` (or the explicit `ValueError` for an unparsable expense date)
yields 0. -/
def dateScore (e : Expense) (r : Receipt) : ℚ :=
  match e.date with
  | none => 0
  | some s =>
    if s = [] then 0
    else
      match parseDate (.s s) with
      | .raised => 0
      | .ok none => 0
      | .ok (some expD) =>
        if truthyStr r.extracted_service_start && truthyStr r.extracted_service_end then
          match r.extracted_service_start, r.extracted_service_end with
          | some ss, some se =>
            match parseDate (.s ss), parseDate (.s se) with
            | .raised, _ => 0
            | _, .raised => 0
            | .ok (some startD), .ok (some endD) => rangeDateScore startD endD expD
            | _, _ => 0
          | _, _ => 0
        else if truthyStr r.extracted_date then
          match r.extracted_date with
          | some sd =>
            match parseDate (.s sd) with
            | .raised => 0
            | .ok none => 0
            | .ok (some recD) => singleDateScore recD expD
          | none => 0
        else 0

/-- Python `a or b` over optional strings (value semantics: first truthy
value, else the second value). -/
def pyOrStr (a b : Option Str) : Option Str :=
  if truthyStr a then a else b

/-- The merchant component of `score_match` (matching.py lines 74-81):
`fuzzRatio` is the similarity function of the external `rapidfuzz` library
(`fuzz.partial_ratio`, a score in `[0, 100]`), passed as a parameter — no
claim depends on its values. -/
def merchantScore (fuzzRatio : Str → Str → ℚ) (e : Expense) (r : Receipt) : ℚ :=
  let em := pyOrStr r.extracted_merchant r.extracted_vendor_name
  if truthyStr em && truthyStr e.merchant then
    match normalize_merchant em, normalize_merchant e.merchant with
    | some rm, some xm =>
      if !rm.isEmpty && !xm.isEmpty then fuzzRatio rm xm / 100 else 0
    | _, _ => 0
  else 0

/-- Component scores of one `score_match` call (the `details` dict; the
advisory `rationale` string is debug output and is not modelled). -/
structure ScoreDetails where
  merchant_score : ℚ
  amount_score : ℚ
  date_score : ℚ

/-- Model of `score_match` (matching.py lines 31-152): weighted sum of the
merchant (0.5), amount (0.3) and date (0.2) components. -/
def score_match (fuzzRatio : Str → Str → ℚ) (e : Expense) (r : Receipt) :
    ℚ × ScoreDetails :=
  let ms := merchantScore fuzzRatio e r
  let asc :=
    match (e.amount.map (fun q => normalize_amount (.num q))).join,
        (r.extracted_amount.map (fun q => normalize_amount (.num q))).join with
    | some ea, some ra => amountScore ea ra
    | _, _ => 0
  let ds := dateScore e r
  (ms * (1/2) + asc * (3/10) + ds * (1/5), ⟨ms, asc, ds⟩)

/-- A match proposal (`propose_matches` result entry; the advisory
`rationale` string is not modelled). -/
structure Proposal where
  receipt_id : Int
  expense_id : Int
  score : ℚ
deriving DecidableEq, Repr

/-- The status string of a receipt row as seen by `str(r.get("status", ""))`
(an absent status reads as the empty string). -/
def statusStr (r : Receipt) : Str :=
  match r.status with
  | none => []
  | some s => s

/-- The error-skip condition of `propose_matches` (matching.py lines
157-159): an error message or a status starting with `error_`. -/
def errSkip (r : Receipt) : Bool :=
  truthyStr r.error_message || ((statusStr r).take 6 = "error_".toList)

/-- The insufficient-extraction skip (matching.py lines 160-163): neither a
merchant nor a vendor name, and `extracted_amount is None` — an amount of
exactly 0 counts as present. -/
def insuffSkip (r : Receipt) : Bool :=
  !(truthyStr r.extracted_merchant || truthyStr r.extracted_vendor_name) &&
    r.extracted_amount.isNone

/-- A receipt `propose_matches` does not score at all. -/
def skipReceipt (r : Receipt) : Bool := errSkip r || insuffSkip r

/-- The inner best-expense accumulator step of `propose_matches` (lines
173-181): replace the running best only on a strictly greater score, so the
first-seen expense wins exact ties. -/
def bestStep (fuzzRatio : Str → Str → ℚ) (r : Receipt)
    (best : Option (ℚ × Int)) (e : Expense) : Option (ℚ × Int) :=
  let s := (score_match fuzzRatio e r).1
  match best with
  | none => some (s, e.id)
  | some b => if s > b.1 then some (s, e.id) else some b

/-- The best expense for one receipt: the inner `for e in expenses` loop. -/
def bestFor (fuzzRatio : Str → Str → ℚ) (r : Receipt) (expenses : List Expense) :
    Option (ℚ × Int) :=
  expenses.foldl (bestStep fuzzRatio r) none

/-- Model of `propose_matches` (matching.py lines 154-190). -/
def propose_matches (fuzzRatio : Str → Str → ℚ) (expenses : List Expense)
    (receipts : List Receipt) : List Proposal :=
  receipts.foldl
    (fun acc r =>
      if skipReceipt r then acc
      else
        match bestFor fuzzRatio r expenses with
        | none => acc
        | some b => acc ++ [⟨r.id, b.2, round4 b.1⟩])
    []

/-! ### Itemization (src/backend/app/routers/expenses.py, itemize_expense) -/

/-- A normalized candidate line item (expenses.py lines 338-340): the
`entry` dict built by the normalization loop. -/
structure NormItem where
  description : JVal
  amount : ℚ
  item_date : Option Str

/-- Sum of the amounts of a list of items. -/
def sumAmounts (l : List NormItem) : ℚ := (l.map (fun it => it.amount)).sum

/-- Apply `g` to the amount of the last item of a list (the source's
`norm[-1]["amount"] = ...` and the SQL `UPDATE ... WHERE id = last_id`). -/
def updateLastAmount (g : ℚ → ℚ) : List NormItem → List NormItem
  | [] => []
  | [it] => [{ it with amount := g it.amount }]
  | it :: rest => it :: updateLastAmount g rest

/-- Code-fence stripping of the provider text (expenses.py lines 312-327):
strip, drop fence lines, strip, drop a leading `json` label. -/
def cleanFences (raw : Str) : Str :=
  let cleaned := trimWs raw
  let cleaned :=
    if cleaned.take 3 = "```".toList then
      let parts := splitOnC '\n' cleaned
      let parts :=
        match parts with
        | p0 :: rest => if p0.take 3 = "```".toList then rest else parts
        | [] => parts
      let parts :=
        if parts ≠ [] ∧ (parts.getLast?.getD []).take 3 = "```".toList then
          parts.dropLast
        else parts
      List.intercalate ['\n'] parts
    else cleaned
  let cleaned := trimWs cleaned
  if (lowerStr cleaned).take 4 = "json".toList then
    trimWs ((cleaned.drop 4).dropWhile (fun c => c = ':'))
  else cleaned

/-- Amount coercion in the normalization loop (expenses.py lines 346-349):
`float(str(amount).replace(",", "").strip())`; numbers round-trip through
`str`, strings have thousands separators stripped, any other type's `str`
form fails `float`. -/
def coerceItemAmount : JVal → Option ℚ
  | .num q => some q
  | .str s => pyFloat (trimWs (s.filter (fun c => c ≠ ',')))
  | _ => none

/-- Date normalization in the loop (expenses.py lines 352-363): a
`DD-MM-YY[YY]` string is rearranged to ISO with a naive `20` prefix for
2-digit years; `YYYY-MM-DD` passes through; anything else becomes null. -/
def normItemDate (dv : Str) : Option Str :=
  match dv with
  | [d1, d2, '-', m1, m2, '-', c1, c2] =>
    if isDigitC d1 && isDigitC d2 && isDigitC m1 && isDigitC m2 &&
        isDigitC c1 && isDigitC c2 then
      some (['2', '0', c1, c2] ++ ['-', m1, m2, '-', d1, d2])
    else none
  | [d1, d2, '-', m1, m2, '-', c1, c2, c3] =>
    if isDigitC d1 && isDigitC d2 && isDigitC m1 && isDigitC m2 &&
        isDigitC c1 && isDigitC c2 && isDigitC c3 then
      some ([c1, c2, c3] ++ ['-', m1, m2, '-', d1, d2])
    else none
  | [d1, d2, '-', m1, m2, '-', c1, c2, c3, c4] =>
    if isDigitC d1 && isDigitC d2 && isDigitC m1 && isDigitC m2 &&
        isDigitC c1 && isDigitC c2 && isDigitC c3 && isDigitC c4 then
      some ([c1, c2, c3, c4] ++ ['-', m1, m2, '-', d1, d2])
    else none
  | _ =>
    match dv with
    | [y1, y2, y3, y4, '-', m1, m2, '-', d1, d2] =>
      if isDigitC y1 && isDigitC y2 && isDigitC y3 && isDigitC y4 &&
          isDigitC m1 && isDigitC m2 && isDigitC d1 && isDigitC d2 then
        some dv
      else none
    | _ => none

/-- Decimal digits of `n` (for the `f"Item {i+1}"` default description). -/
def natChars (n : Nat) : Str :=
  (Nat.toDigits 10 n)

/-- Normalize one parsed candidate object (one iteration of the loop at
expenses.py lines 330-364); `none` means `continue`. -/
def normEntry (i : Nat) (kv : List (Str × JVal)) : Option NormItem :=
  let desc := pyOrChain [pyGetV kv "description".toList, pyGetV kv "item".toList,
    pyGetV kv "name".toList]
  let amount := pyOrChain [pyGetV kv "debit".toList, pyGetV kv "amount".toList,
    pyGetV kv "total".toList]
  let amountBad : Bool :=
    match amount with
    | none => true
    | some (.str s) => s.isEmpty
    | some _ => false
  if amountBad then none
  else
    match amount.bind coerceItemAmount with
    | none => none
    | some amount_f =>
      if amount_f ≤ 0 then none
      else
        let date_val := pyOrChain [pyGetV kv "date".toList, pyGetV kv "item_date".toList]
        let norm_date : Option Str :=
          match date_val with
          | some (.str s) => if trimWs s = [] then none else normItemDate (trimWs s)
          | _ => none
        let descF : JVal :=
          match desc with
          | some v => if jTruthy v then v else .str ("Item ".toList ++ natChars (i + 1))
          | none => .str ("Item ".toList ++ natChars (i + 1))
        some ⟨descF, amount_f, norm_date⟩

/-- The full normalization loop (`for i, it in enumerate(parsed_items)`):
non-dict entries are skipped but still advance the index. -/
def normalizeItems (i : Nat) : List JVal → List NormItem
  | [] => []
  | v :: rest =>
    match v with
    | .obj kv =>
      match normEntry i kv with
      | some e => e :: normalizeItems (i + 1) rest
      | none => normalizeItems (i + 1) rest
    | _ => normalizeItems (i + 1) rest

/-- Whether the proportional-scaling branch fires (expenses.py line 370):
both totals positive and relative difference above 1%. -/
def scaleCond (total : ℚ) (norm : List NormItem) : Prop :=
  0 < total ∧ 0 < sumAmounts norm ∧ |sumAmounts norm - total| / total > 1/100

instance (total : ℚ) (norm : List NormItem) : Decidable (scaleCond total norm) := by
  unfold scaleCond
  infer_instance

/-- The in-memory scaling step (expenses.py lines 370-381): scale every
amount by `total/sum` rounding to 2 decimals, then add the rounded drift to
the last item when it is at least one cent. -/
def scaleItems (total : ℚ) (norm : List NormItem) : List NormItem :=
  if scaleCond total norm then
    let scale := total / sumAmounts norm
    let scaled := norm.map (fun it => { it with amount := round2 (it.amount * scale) })
    let drift := round2 (total - sumAmounts scaled)
    if 1/100 ≤ |drift| ∧ scaled.isEmpty = false then
      updateLastAmount (fun a => round2 (a + drift)) scaled
    else scaled
  else norm

/-- The post-insert drift correction (expenses.py lines 396-411): re-read
rows, and when the rounded residual is at least one cent add it (without
re-rounding) to the last row. -/
def postInsertAdjust (total : ℚ) (rows : List NormItem) : List NormItem :=
  let final_drift := round2 (total - sumAmounts rows)
  if 1/100 ≤ |final_drift| ∧ rows.isEmpty = false then
    updateLastAmount (fun a => a + final_drift) rows
  else rows

/-- The whole reconciliation computation applied to a candidate set:
scaling step followed by the post-persistence drift check (on this code
path the expense has no pre-existing items, so the persisted rows are
exactly the scaled candidates). -/
def reconcileItems (total : ℚ) (norm : List NormItem) : List NormItem :=
  postInsertAdjust total (scaleItems total norm)

/-- Result value of an itemization run (the JSON body built by
`itemize_expense`; `expense_id` and the `reused` flag are fixed on this
code path). -/
structure ItemizeResult where
  items : List NormItem
  warning : Option Str
  error : Option JVal

/-- The error-envelope detection (expenses.py lines 296-304): only when the
raw text is truthy, starts with `{` after stripping, and mentions `"error"`
in its first 120 characters; then a parse as a dict with a truthy `error`
key propagates the payload. -/
def envelopeErr (raw : Str) : Option JVal :=
  if raw ≠ [] ∧ (trimWs raw).take 1 = ['{'] ∧
      containsSub "\"error\"".toList (raw.take 120) then
    match jsonLoads raw with
    | some (.obj kv) => if jTruthyOpt (pyGetV kv "error".toList) then some (.obj kv) else none
    | _ => none
  else none

/-- Model of the itemization core of `itemize_expense` (expenses.py lines
258-412): everything after the reuse/rebuild check.  `total` is the
expense's authoritative amount, `hasLinks` whether any receipt is linked,
`raw` the line-item provider's text (empty on provider failure — the call
is wrapped in `suppress(Exception)`), and `stored` the line items already
persisted for this expense (always empty on this code path).  Returns the
stored items after the run and the result value. -/
def itemizeCore (total : ℚ) (hasLinks : Bool) (raw : Str) (stored : List NormItem) :
    List NormItem × ItemizeResult :=
  if !hasLinks then (stored, ⟨[], some "No receipts linked".toList, none⟩)
  else
    match envelopeErr raw with
    | some payload => (stored, ⟨[], none, some payload⟩)
    | none =>
      if raw = [] then (stored, ⟨[], some "AOAI returned empty".toList, none⟩)
      else
        let cleaned := cleanFences raw
        let parsed_items : List JVal :=
          match jsonLoads cleaned with
          | some (.arr l) => l
          | _ => []
        let norm := normalizeItems 0 parsed_items
        if norm.isEmpty then (stored, ⟨[], some "No valid AOAI items".toList, none⟩)
        else
          let items' := scaleItems total norm
          let rows := stored ++ items'
          let rows' := postInsertAdjust total rows
          (rows', ⟨rows', none, none⟩)

/-! ### Reconciliation lemmas -/

theorem sumAmounts_nil : sumAmounts [] = 0 := rfl

theorem sumAmounts_cons (it : NormItem) (l : List NormItem) :
    sumAmounts (it :: l) = it.amount + sumAmounts l := by
  simp [sumAmounts]

theorem updateLastAmount_length (g : ℚ → ℚ) (l : List NormItem) :
    (updateLastAmount g l).length = l.length := by
  induction l with
  | nil => rfl
  | cons it rest ih =>
    cases rest with
    | nil => rfl
    | cons x r2 =>
      show (it :: updateLastAmount g (x :: r2)).length = (it :: x :: r2).length
      simp only [List.length_cons] at ih ⊢
      omega

theorem updateLastAmount_get?_lt (g : ℚ → ℚ) (l : List NormItem) (i : Nat)
    (h : i + 1 < l.length) :
    (updateLastAmount g l).get? i = l.get? i := by
  induction l generalizing i with
  | nil => rfl
  | cons it rest ih =>
    cases rest with
    | nil => simp at h
    | cons x r2 =>
      cases i with
      | zero => rfl
      | succ j =>
        show (updateLastAmount g (x :: r2)).get? j = (x :: r2).get? j
        exact ih j (by simpa using h)

theorem sumAmounts_updateLast_add (d : ℚ) (l : List NormItem) (h : l ≠ []) :
    sumAmounts (updateLastAmount (fun a => a + d) l) = sumAmounts l + d := by
  induction l with
  | nil => exact absurd rfl h
  | cons it rest ih =>
    cases rest with
    | nil =>
      show sumAmounts [{ it with amount := it.amount + d }] = sumAmounts [it] + d
      simp [sumAmounts]
    | cons x r2 =>
      show sumAmounts (it :: updateLastAmount (fun a => a + d) (x :: r2)) =
        sumAmounts (it :: x :: r2) + d
      rw [sumAmounts_cons, ih (by simp)]
      simp only [sumAmounts_cons]
      ring

theorem updateLastAmount_round_eq (d : ℚ) (l : List NormItem)
    (hl : ∀ it ∈ l, Mult100 it.amount) (hd : Mult100 d) :
    updateLastAmount (fun a => round2 (a + d)) l =
      updateLastAmount (fun a => a + d) l := by
  induction l with
  | nil => rfl
  | cons it rest ih =>
    cases rest with
    | nil =>
      have hm := round2_of_mult100 (mult100_add (hl it (by simp)) hd)
      simp [updateLastAmount, hm]
    | cons x r2 =>
      show it :: updateLastAmount (fun a => round2 (a + d)) (x :: r2) =
        it :: updateLastAmount (fun a => a + d) (x :: r2)
      rw [ih (fun y hy => hl y (by simp [hy]))]

theorem round2_small_eq_zero {x : ℚ} (h : |round2 x| < 1/100) : round2 x = 0 := by
  have hk : round2 x = (roundHE (100 * x) : ℚ) / 100 := rfl
  rw [hk, abs_div, show |(100:ℚ)| = 100 by norm_num, div_lt_div_iff₀ (by norm_num) (by norm_num)] at h
  have h2 : |roundHE (100 * x)| < 1 := by exact_mod_cast (by linarith : |(roundHE (100*x) : ℚ)| < 1)
  have h3 : roundHE (100 * x) = 0 := by
    have h4 := abs_lt.mp h2
    omega
  rw [hk, h3]
  norm_num

theorem postInsertAdjust_close (t : ℚ) (l : List NormItem) (h : l ≠ []) :
    |t - sumAmounts (postInsertAdjust t l)| ≤ 1/200 := by
  unfold postInsertAdjust
  by_cases hc : 1/100 ≤ |round2 (t - sumAmounts l)| ∧ l.isEmpty = false
  · rw [if_pos hc, sumAmounts_updateLast_add _ _ h, sub_add_eq_sub_sub]
    exact round2_close (t - sumAmounts l)
  · rw [if_neg hc]
    have hl : l.isEmpty = false := by
      cases l with
      | nil => exact absurd rfl h
      | cons a r => rfl
    have hlt : |round2 (t - sumAmounts l)| < 1/100 := by
      by_contra hge
      exact hc ⟨le_of_not_lt hge, hl⟩
    exact (round2_eq_zero_iff (t - sumAmounts l)).mp (round2_small_eq_zero hlt)

theorem postInsertAdjust_length (t : ℚ) (l : List NormItem) :
    (postInsertAdjust t l).length = l.length := by
  unfold postInsertAdjust
  by_cases hc : 1/100 ≤ |round2 (t - sumAmounts l)| ∧ l.isEmpty = false
  · rw [if_pos hc, updateLastAmount_length]
  · rw [if_neg hc]

theorem postInsertAdjust_get?_lt (t : ℚ) (l : List NormItem) (i : Nat)
    (h : i + 1 < l.length) :
    (postInsertAdjust t l).get? i = l.get? i := by
  unfold postInsertAdjust
  by_cases hc : 1/100 ≤ |round2 (t - sumAmounts l)| ∧ l.isEmpty = false
  · rw [if_pos hc, updateLastAmount_get?_lt _ _ _ h]
  · rw [if_neg hc]

theorem scaleItems_length (t : ℚ) (norm : List NormItem) :
    (scaleItems t norm).length = norm.length := by
  unfold scaleItems
  by_cases hc : scaleCond t norm
  · rw [if_pos hc]
    by_cases hc2 : 1/100 ≤ |round2 (t - sumAmounts (norm.map (fun it =>
        { it with amount := round2 (it.amount * (t / sumAmounts norm)) })))| ∧
        (norm.map (fun it =>
          { it with amount := round2 (it.amount * (t / sumAmounts norm)) })).isEmpty = false
    · rw [if_pos hc2, updateLastAmount_length, List.length_map]
    · rw [if_neg hc2, List.length_map]
  · rw [if_neg hc]

theorem scaleItems_ne_nil (t : ℚ) (norm : List NormItem) (h : norm ≠ []) :
    scaleItems t norm ≠ [] := by
  intro hcon
  have := scaleItems_length t norm
  rw [hcon] at this
  cases norm with
  | nil => exact h rfl
  | cons a r => simp at this

/-- C1: after an itemization run with at least one valid candidate item, the
persisted sum matches the authoritative amount to within 0.01, and drift
correction touches only the last item: every earlier item keeps its value
from the scaling step, which (when scaling fired) is its 2-decimal-rounded
proportionally-scaled amount. -/
theorem C1_reconciliation_sum_and_last_only (total : ℚ) (norm : List NormItem)
    (h : norm ≠ []) :
    |total - sumAmounts (reconcileItems total norm)| < 1/100
    ∧ (reconcileItems total norm).length = (scaleItems total norm).length
    ∧ (∀ i, i + 1 < (scaleItems total norm).length →
        (reconcileItems total norm).get? i = (scaleItems total norm).get? i)
    ∧ (scaleCond total norm →
        ∀ i, i + 1 < norm.length →
          (scaleItems total norm).get? i =
            (norm.get? i).map (fun it =>
              { it with amount := round2 (it.amount * (total / sumAmounts norm)) })) := by
  refine ⟨?_, ?_, ?_, ?_⟩
  · have hne := scaleItems_ne_nil total norm h
    have := postInsertAdjust_close total (scaleItems total norm) hne
    calc |total - sumAmounts (reconcileItems total norm)| ≤ 1/200 := this
      _ < 1/100 := by norm_num
  · exact postInsertAdjust_length total (scaleItems total norm)
  · intro i hi
    exact postInsertAdjust_get?_lt total (scaleItems total norm) i hi
  · intro hc i hi
    unfold scaleItems
    rw [if_pos hc]
    have hlen : (norm.map (fun it =>
        { it with amount := round2 (it.amount * (total / sumAmounts norm)) })).length =
        norm.length := List.length_map _ _
    by_cases hc2 : 1/100 ≤ |round2 (total - sumAmounts (norm.map (fun it =>
        { it with amount := round2 (it.amount * (total / sumAmounts norm)) })))| ∧
        (norm.map (fun it =>
          { it with amount := round2 (it.amount * (total / sumAmounts norm)) })).isEmpty = false
    · rw [if_pos hc2, updateLastAmount_get?_lt _ _ _ (by rw [hlen]; exact hi)]
      simp [List.get?_map]
    · rw [if_neg hc2]
      simp [List.get?_map]

/-- C1 witness: scenario B of the spec — three 300-unit candidates against
an authoritative total of 1000. -/
theorem C1_reconciliation_witness :
    ([⟨JVal.null, 300, none⟩, ⟨JVal.null, 300, none⟩, ⟨JVal.null, 300, none⟩] :
      List NormItem) ≠ []
    ∧ |1000 - sumAmounts (reconcileItems 1000
        [⟨JVal.null, 300, none⟩, ⟨JVal.null, 300, none⟩, ⟨JVal.null, 300, none⟩])| <
        1/100 :=
  ⟨by simp,
    (C1_reconciliation_sum_and_last_only 1000
      [⟨JVal.null, 300, none⟩, ⟨JVal.null, 300, none⟩, ⟨JVal.null, 300, none⟩]
      (by simp)).1⟩

/-! ### Evaluation helpers for concrete roundings -/

theorem roundHE_half_even (n : ℤ) (y : ℚ) (h : y = (n:ℚ) + 1/2) (he : Even n) :
    roundHE y = n := by
  have hf : ⌊y⌋ = n := by
    rw [Int.floor_eq_iff]
    push_cast
    constructor <;> rw [h] <;> linarith
  unfold roundHE
  rw [hf, if_neg (by rw [h]; linarith), if_neg (by rw [h]; linarith), if_pos he]

theorem roundHE_half_odd (n : ℤ) (y : ℚ) (h : y = (n:ℚ) + 1/2) (ho : ¬ Even n) :
    roundHE y = n + 1 := by
  have hf : ⌊y⌋ = n := by
    rw [Int.floor_eq_iff]
    push_cast
    constructor <;> rw [h] <;> linarith
  unfold roundHE
  rw [hf, if_neg (by rw [h]; linarith), if_neg (by rw [h]; linarith), if_neg ho]

/-! ### C9: normalize_amount -/

theorem roundHE_tie_even (y : ℚ) (h : |y - (roundHE y : ℚ)| = 1/2) :
    Even (roundHE y) := by
  have h0 : (0:ℚ) ≤ y - (⌊y⌋ : ℚ) := sub_nonneg.mpr (Int.floor_le y)
  have h1 : y - (⌊y⌋ : ℚ) < 1 := by
    have := Int.lt_floor_add_one y
    linarith
  by_cases hlt : y - (⌊y⌋:ℚ) < 1/2
  · exfalso
    unfold roundHE at h
    rw [if_pos hlt, abs_of_nonneg h0] at h
    linarith
  · by_cases hgt : (1:ℚ)/2 < y - (⌊y⌋:ℚ)
    · exfalso
      unfold roundHE at h
      rw [if_neg hlt, if_pos hgt, abs_of_nonpos (by push_cast; linarith)] at h
      push_cast at h
      linarith
    · have heq : y - (⌊y⌋:ℚ) = 1/2 := le_antisymm (not_lt.mp hgt) (not_lt.mp hlt)
      unfold roundHE
      rw [if_neg hlt, if_neg hgt]
      by_cases hev : Even ⌊y⌋
      · rw [if_pos hev]
        exact hev
      · rw [if_neg hev]
        rcases Int.even_or_odd ⌊y⌋ with he | ho
        · exact absurd he hev
        · exact ho.add_one

theorem abs_sub_div100 (q : ℚ) (k : ℤ) :
    |q - (k:ℚ)/100| = |100 * q - (k:ℚ)| / 100 := by
  rw [show q - (k:ℚ)/100 = (100*q - (k:ℚ))/100 by ring, abs_div,
    show |(100:ℚ)| = 100 by norm_num]

/-- Modelled from the spec: the half-away-from-zero 2-decimal rounding that
the spec says `normalize_amount` performs (it does not: Python 3's `round`
is half-to-even). -/
def specHalfAway2 (q : ℚ) : ℚ :=
  ((if 0 ≤ q then ⌊100 * q + 1/2⌋ else -⌊-(100 * q) + 1/2⌋ : ℤ) : ℚ) / 100

theorem r2_eighth : round2 (1/8) = 3/25 := by
  unfold round2
  rw [show (100:ℚ) * (1/8) = ((12:ℤ):ℚ) + 1/2 by norm_num,
    roundHE_half_even 12 _ rfl (by decide)]
  norm_num

/-- C9 counterexample: at input `0.125` (exactly representable in binary
floating point) the code rounds half-to-even and returns `0.12`, while the
claimed half-away-from-zero rule demands `0.13`. -/
theorem C9_rounding_counterexample :
    normalize_amount (.num (1/8)) = some (3/25)
    ∧ specHalfAway2 (1/8) = 13/100
    ∧ (3:ℚ)/25 ≠ 13/100 := by
  refine ⟨?_, ?_, by norm_num⟩
  · show (coerceNA (.num (1/8))).map round2 = some (3/25)
    show some (round2 (1/8)) = some (3/25)
    rw [r2_eighth]
  · unfold specHalfAway2
    rw [if_pos (by norm_num : (0:ℚ) ≤ 1/8),
      show (100:ℚ) * (1/8) + 1/2 = ((13:ℤ):ℚ) by norm_num, Int.floor_intCast]
    norm_num

/-- C9 amended: `normalize_amount` rounds its numerically-coercible input
half-to-even (Python 3's `round`) to 2 decimal places — the result is a
whole number of hundredths within half a cent of the input, and exact
half-cent ties land on an even hundredth count — returns `None` on any
coercion failure, and is stable under repeated application. -/
theorem C9_normalize_amount_half_even_stable (x : JVal) :
    (coerceNA x = none → normalize_amount x = none)
    ∧ (∀ q : ℚ, coerceNA x = some q →
        ∃ k : ℤ, normalize_amount x = some ((k:ℚ)/100) ∧ |q - (k:ℚ)/100| ≤ 1/200 ∧
          (|q - (k:ℚ)/100| = 1/200 → Even k))
    ∧ normalize_amount (ofOptNum (normalize_amount x)) = normalize_amount x := by
  refine ⟨?_, ?_, ?_⟩
  · intro h
    unfold normalize_amount
    rw [h]
    rfl
  · intro q hq
    refine ⟨roundHE (100 * q), ?_, ?_, ?_⟩
    · unfold normalize_amount
      rw [hq]
      rfl
    · rw [abs_sub_div100]
      have := roundHE_close (100 * q)
      linarith
    · intro htie
      rw [abs_sub_div100] at htie
      have h2 : |100 * q - (roundHE (100*q) : ℚ)| = 1/2 := by linarith
      exact roundHE_tie_even (100 * q) h2
  · cases hq : coerceNA x with
    | none =>
      unfold normalize_amount
      rw [hq]
      rfl
    | some q =>
      have h1 : normalize_amount x = some (round2 q) := by
        unfold normalize_amount
        rw [hq]
        rfl
      rw [h1]
      show normalize_amount (.num (round2 q)) = some (round2 q)
      unfold normalize_amount
      show Option.map round2 (some (round2 q)) = some (round2 q)
      rw [Option.map_some']
      rw [round2_of_mult100 (round2_mult100 q)]

/-- C9 witness: the amended theorem applied at the concrete input `0.125`. -/
theorem C9_normalize_amount_witness :
    coerceNA (.num (1/8)) = some (1/8)
    ∧ ∃ k : ℤ, normalize_amount (.num (1/8)) = some ((k:ℚ)/100) ∧
        |1/8 - (k:ℚ)/100| ≤ 1/200 ∧ (|1/8 - (k:ℚ)/100| = 1/200 → Even k) :=
  ⟨rfl, (C9_normalize_amount_half_even_stable (.num (1/8))).2.1 (1/8) rfl⟩

/-! ### C7: amount component of score_match -/

/-- C7: for a fixed positive expense amount the amount component of
`score_match` equals 1 within 0.5 currency units, equals
`max(0, 1 - (relative difference)/0.05)` beyond, and is monotonically
non-increasing in the absolute difference. -/
theorem C7_amount_score_monotone (a r r' : ℚ) (ha : 0 < a) :
    (|a - r| ≤ 1/2 → amountScore a r = 1)
    ∧ (1/2 < |a - r| → amountScore a r = max 0 (1 - (|a - r| / a) / (5/100)))
    ∧ (|a - r| ≤ |a - r'| → amountScore a r' ≤ amountScore a r) := by
  have hne : a ≠ 0 := ne_of_gt ha
  refine ⟨?_, ?_, ?_⟩
  · intro h
    unfold amountScore
    rw [if_neg hne, if_pos h]
  · intro h
    unfold amountScore
    rw [if_neg hne, if_neg (not_le.mpr h)]
  · intro hle
    unfold amountScore
    rw [if_neg hne, if_neg hne]
    by_cases h1 : |a - r'| ≤ 1/2
    · rw [if_pos h1, if_pos (le_trans hle h1)]
    · rw [if_neg h1]
      have hmax1 : max 0 (1 - (|a - r'| / a) / (5/100)) ≤ 1 := by
        apply max_le (by norm_num)
        have : (0:ℚ) ≤ (|a - r'| / a) / (5/100) := by positivity
        linarith
      by_cases h2 : |a - r| ≤ 1/2
      · rw [if_pos h2]
        exact hmax1
      · rw [if_neg h2]
        apply max_le_max le_rfl
        have hd : |a - r| / a ≤ |a - r'| / a := (div_le_div_right ha).mpr hle
        have hd2 : (|a - r| / a) / (5/100) ≤ (|a - r'| / a) / (5/100) :=
          (div_le_div_right (by norm_num : (0:ℚ) < 5/100)).mpr hd
        linarith

/-- C7 witness: expense amount 1000 against receipt amounts 1000 and 600. -/
theorem C7_amount_score_witness :
    (0:ℚ) < 1000
    ∧ ((|(1000:ℚ) - 1000| ≤ 1/2 → amountScore 1000 1000 = 1)
      ∧ (1/2 < |(1000:ℚ) - 1000| →
          amountScore 1000 1000 = max 0 (1 - (|(1000:ℚ) - 1000| / 1000) / (5/100)))
      ∧ (|(1000:ℚ) - 1000| ≤ |(1000:ℚ) - 600| → amountScore 1000 600 ≤ amountScore 1000 1000)) :=
  ⟨by norm_num, C7_amount_score_monotone 1000 1000 600 (by norm_num)⟩

/-! ### C8: normalize_merchant idempotence -/

theorem map_eq_self_of_fix {f : Char → Char} {l : Str} (h : ∀ c ∈ l, f c = c) :
    l.map f = l := by
  induction l with
  | nil => rfl
  | cons c r ih =>
    simp only [List.map_cons, h c (by simp), ih (fun x hx => h x (by simp [hx]))]

theorem dropWhile_head_false {p : Char → Bool} {l : Str} {c : Char} {r : Str}
    (h : l.dropWhile p = c :: r) : p c = false := by
  induction l with
  | nil => simp [List.dropWhile] at h
  | cons a l' ih =>
    rw [List.dropWhile_cons] at h
    by_cases hp : p a = true
    · rw [if_pos hp] at h
      exact ih h
    · rw [if_neg hp] at h
      cases h
      exact eq_false_of_ne_true hp

theorem dropWhile_dropWhile (p : Char → Bool) (l : Str) :
    (l.dropWhile p).dropWhile p = l.dropWhile p := by
  cases h : l.dropWhile p with
  | nil => rfl
  | cons c r =>
    rw [List.dropWhile_cons, if_neg (by rw [dropWhile_head_false h]; simp)]

theorem dropWhile_eq_self_of_leading {p : Char → Bool} {l m : Str}
    (hpre : l <+: m) (hm : m.dropWhile p = m) : l.dropWhile p = l := by
  cases l with
  | nil => rfl
  | cons c r =>
    obtain ⟨t, ht⟩ := hpre
    rw [← ht] at hm
    simp only [List.cons_append] at hm
    rw [List.dropWhile_cons] at hm ⊢
    by_cases hp : p c = true
    · exfalso
      rw [if_pos hp] at hm
      have hlen := congrArg List.length hm
      have hsub := ((List.dropWhile_suffix p :
        (r ++ t).dropWhile p <:+ r ++ t)).length_le
      simp only [List.length_cons] at hlen
      omega
    · rw [if_neg hp]

theorem trimWs_idem (l : Str) : trimWs (trimWs l) = trimWs l := by
  unfold trimWs
  set A := l.dropWhile (fun c => isWsC c) with hA
  set B := A.reverse.dropWhile (fun c => isWsC c) with hB
  have h1 : B.reverse.dropWhile (fun c => isWsC c) = B.reverse := by
    apply @dropWhile_eq_self_of_leading _ _ A
    · have hsuf : B <:+ A.reverse := by rw [hB]; exact List.dropWhile_suffix _
      have := List.reverse_prefix.mpr hsuf
      rwa [List.reverse_reverse] at this
    · rw [hA]
      exact dropWhile_dropWhile _ l
  rw [h1, List.reverse_reverse, hB, dropWhile_dropWhile]

theorem trimWs_infixOf (l : Str) : trimWs l <:+: l := by
  unfold trimWs
  have h1 : (l.dropWhile (fun c => isWsC c)).reverse.dropWhile (fun c => isWsC c) <:+
      (l.dropWhile (fun c => isWsC c)).reverse := List.dropWhile_suffix _
  have h2 := List.reverse_prefix.mpr h1
  rw [List.reverse_reverse] at h2
  exact h2.isInfix.trans (List.dropWhile_suffix _).isInfix

theorem mem_squashRuns {p : Char → Bool} {l : Str} {b : Bool} {c : Char}
    (h : c ∈ squashRuns p b l) : c = ' ' ∨ (c ∈ l ∧ p c = false) := by
  induction l generalizing b with
  | nil => simp [squashRuns] at h
  | cons a r ih =>
    unfold squashRuns at h
    by_cases hp : p a = true
    · rw [if_pos hp] at h
      by_cases hb : b = true
      · rw [if_pos hb] at h
        rcases ih h with h1 | h1
        · exact Or.inl h1
        · exact Or.inr ⟨by simp [h1.1], h1.2⟩
      · rw [if_neg hb] at h
        rcases List.mem_cons.mp h with h1 | h1
        · exact Or.inl h1
        · rcases ih h1 with h2 | h2
          · exact Or.inl h2
          · exact Or.inr ⟨by simp [h2.1], h2.2⟩
    · rw [if_neg hp] at h
      rcases List.mem_cons.mp h with h1 | h1
      · subst h1
        exact Or.inr ⟨by simp, eq_false_of_ne_true hp⟩
      · rcases ih h1 with h2 | h2
        · exact Or.inl h2
        · exact Or.inr ⟨by simp [h2.1], h2.2⟩

theorem squashRuns_head_true {p : Char → Bool} {l : Str} {c : Char}
    (h : c ∈ (squashRuns p true l).head?) : p c = false := by
  induction l with
  | nil => simp [squashRuns] at h
  | cons a r ih =>
    unfold squashRuns at h
    by_cases hp : p a = true
    · rw [if_pos hp, if_pos rfl] at h
      exact ih h
    · rw [if_neg hp] at h
      simp only [List.head?_cons, Option.mem_def, Option.some.injEq] at h
      subst h
      exact eq_false_of_ne_true hp

theorem squashRuns_chain (p : Char → Bool) (l : Str) (b : Bool) :
    List.Chain' (fun a c => ¬(p a = true ∧ p c = true)) (squashRuns p b l) := by
  induction l generalizing b with
  | nil => simp [squashRuns]
  | cons a r ih =>
    unfold squashRuns
    by_cases hp : p a = true
    · rw [if_pos hp]
      by_cases hb : b = true
      · rw [if_pos hb]
        exact ih true
      · rw [if_neg hb]
        rw [List.chain'_cons']
        refine ⟨?_, ih true⟩
        intro y hy
        intro hcon
        rw [squashRuns_head_true hy] at hcon
        exact absurd hcon.2 (by simp)
    · rw [if_neg hp]
      rw [List.chain'_cons']
      refine ⟨?_, ih false⟩
      intro y hy hcon
      exact hp hcon.1

theorem squashRuns_id {p : Char → Bool} {l : Str}
    (hall : ∀ c ∈ l, p c = true → c = ' ')
    (hchain : List.Chain' (fun a c => ¬(a = ' ' ∧ c = ' ')) l) :
    ∀ b : Bool, (b = true → ∀ c ∈ l.head?, p c = false) → squashRuns p b l = l := by
  induction l with
  | nil => intro b _; rfl
  | cons a r ih =>
    intro b hb
    unfold squashRuns
    by_cases hp : p a = true
    · have ha : a = ' ' := hall a (by simp) hp
      have hbf : b = false := by
        cases b with
        | false => rfl
        | true =>
          have := hb rfl a (by simp)
          rw [hp] at this
          exact absurd this (by simp)
      rw [if_pos hp, hbf, if_neg (by simp)]
      have hr : squashRuns p true r = r := by
        apply ih
        · exact fun c hc hpc => hall c (by simp [hc]) hpc
        · exact (List.chain'_cons'.mp hchain).2
        · intro _ c hc
          have hpair := (List.chain'_cons'.mp hchain).1 c hc
          by_cases hpc : p c = true
          · have hcsp : c = ' ' := by
              apply hall c _ hpc
              rcases r with _ | ⟨x, r'⟩
              · simp at hc
              · simp only [List.head?_cons, Option.mem_def, Option.some.injEq] at hc
                simp [hc]
            exact absurd ⟨ha, hcsp⟩ hpair
          · exact eq_false_of_ne_true hpc
      rw [hr, ha]
    · rw [if_neg hp]
      have hr : squashRuns p false r = r := by
        apply ih
        · exact fun c hc hpc => hall c (by simp [hc]) hpc
        · exact (List.chain'_cons'.mp hchain).2
        · intro hcon
          exact absurd hcon (by simp)
      rw [hr]

theorem isLowAl_not_ws {c : Char} (h : isLowAl c = true) : isWsC c = false := by
  unfold isLowAl at h
  unfold isWsC
  simp only [Bool.or_eq_true, Bool.and_eq_true, decide_eq_true_eq] at h
  simp only [Bool.or_eq_false_iff, decide_eq_false_iff_not]
  omega

theorem ws_space : isWsC ' ' = true := by decide

theorem toLowerC_fix {c : Char} (h : isLowAl c = true ∨ c = ' ') : toLowerC c = c := by
  rcases h with h | h
  · unfold isLowAl at h
    simp only [Bool.or_eq_true, Bool.and_eq_true, decide_eq_true_eq] at h
    unfold toLowerC
    rw [if_neg]
    simp only [Bool.and_eq_true, decide_eq_true_eq, not_and, not_le]
    omega
  · subst h
    decide

/-- The canonical-form facts of every `normalize_merchant` output: only
lower-case alphanumerics and spaces, no two adjacent spaces, and stable
under stripping. -/
theorem normalize_merchant_canonical {s t : Str}
    (h : normalize_merchant (some s) = some t) :
    (∀ c ∈ t, isLowAl c = true ∨ c = ' ')
    ∧ List.Chain' (fun a c => ¬(a = ' ' ∧ c = ' ')) t
    ∧ trimWs t = t := by
  simp only [normalize_merchant] at h
  by_cases hs : s = []
  · rw [if_pos hs] at h
    cases h
  · rw [if_neg hs, Option.some_inj] at h
    subst h
    refine ⟨?_, ?_, ?_⟩
    · intro c hc
      have hc2 := (trimWs_infixOf _).subset hc
      rcases mem_squashRuns hc2 with h1 | h1
      · exact Or.inr h1
      · rcases mem_squashRuns h1.1 with h2 | h2
        · exact Or.inr h2
        · left
          have h3 := h2.2
          rwa [Bool.not_eq_false'] at h3
    · have hch := squashRuns_chain isWsC
        (squashRuns (fun c => !isLowAl c) false (trimWs (lowerStr s))) false
      have hch2 : List.Chain' (fun a c : Char => ¬(a = ' ' ∧ c = ' '))
          (squashRuns isWsC false
            (squashRuns (fun c => !isLowAl c) false (trimWs (lowerStr s)))) :=
        hch.imp (fun a c hac hcon =>
          hac ⟨by rw [hcon.1]; exact ws_space, by rw [hcon.2]; exact ws_space⟩)
      exact hch2.infix (trimWs_infixOf _)
    · exact trimWs_idem _

/-- Identity of the normalization pipeline on canonical non-empty strings. -/
theorem normalize_merchant_fix {t : Str} (hne : t ≠ [])
    (hall : ∀ c ∈ t, isLowAl c = true ∨ c = ' ')
    (hchain : List.Chain' (fun a c => ¬(a = ' ' ∧ c = ' ')) t)
    (htrim : trimWs t = t) :
    normalize_merchant (some t) = some t := by
  simp only [normalize_merchant]
  rw [if_neg hne]
  have hlow : lowerStr t = t := map_eq_self_of_fix (fun c hc => toLowerC_fix (hall c hc))
  rw [hlow, htrim]
  have h1 : squashRuns (fun c => !isLowAl c) false t = t := by
    apply squashRuns_id (fun c hc hpc => ?_) hchain false (by intro hcon; exact absurd hcon (by simp))
    · rcases hall c hc with h | h
      · rw [h] at hpc
        exact absurd hpc (by simp)
      · exact h
  rw [h1]
  have h2 : squashRuns isWsC false t = t := by
    apply squashRuns_id (fun c hc hpc => ?_) hchain false (by intro hcon; exact absurd hcon (by simp))
    · rcases hall c hc with h | h
      · rw [isLowAl_not_ws h] at hpc
        cases hpc
      · exact h
  rw [h2, htrim]

/-- C8 counterexample: the input `"!!!"` (no alphanumeric characters)
normalizes to the empty string, but a second application maps the empty
string — which is falsy in Python — to `None`, so the empty string is not a
fixed point and `normalize_merchant` is not idempotent. -/
theorem C8_idempotence_counterexample :
    normalize_merchant (normalize_merchant (some ['!', '!', '!'])) = none
    ∧ normalize_merchant (some ['!', '!', '!']) = some []
    ∧ (none : Option Str) ≠ some [] := by
  refine ⟨by decide, by decide, by decide⟩

/-- C8 amended: `None` maps to `None`, and `normalize_merchant` is
idempotent on every input whose normalization is non-empty; an input with no
alphanumeric characters normalizes to the empty string, whose re-application
yields `None` instead. -/
theorem C8_normalize_merchant_idempotent_amended :
    normalize_merchant none = none
    ∧ (∀ s t : Str, normalize_merchant (some s) = some t → t ≠ [] →
        normalize_merchant (normalize_merchant (some s)) = normalize_merchant (some s))
    ∧ (∀ s : Str, normalize_merchant (some s) = some [] →
        normalize_merchant (normalize_merchant (some s)) = none) := by
  refine ⟨rfl, ?_, ?_⟩
  · intro s t hst hne
    obtain ⟨hall, hchain, htrim⟩ := normalize_merchant_canonical hst
    rw [hst]
    exact normalize_merchant_fix hne hall hchain htrim
  · intro s hs
    rw [hs]
    rfl

/-- C8 witness: the amended idempotence applied at a concrete merchant. -/
theorem C8_normalize_merchant_witness :
    normalize_merchant (some "JW Marriott".toList) = some "jw marriott".toList
    ∧ "jw marriott".toList ≠ []
    ∧ normalize_merchant (normalize_merchant (some "JW Marriott".toList)) =
        normalize_merchant (some "JW Marriott".toList) :=
  ⟨by decide, by decide,
    (C8_normalize_merchant_idempotent_amended).2.1 "JW Marriott".toList
      "jw marriott".toList (by decide) (by decide)⟩

/-! ### C5/C6: _parse_date -/

/-- C6: `_parse_date`'s docstring promises a `date` or `None`, and the spec
says it never raises; but a whitespace-only (truthy) string passes the
falsy-input guard and `val.strip().split()[0]` then indexes an empty list,
raising `IndexError`. -/
theorem C6_parse_date_raises_on_whitespace :
    parseDate (.s [' ']) = .raised
    ∧ parseDate .null = .ok none
    ∧ parseDate .notStr = .ok none
    ∧ parseDate (.s []) = .ok none
    ∧ parseDate (.s ['x']) = .ok none := by
  refine ⟨by decide, rfl, rfl, by decide, by decide⟩

/-- The character `'0' + n` used to build two-digit numerals. -/
def dchar (n : Nat) : Char := Char.ofNat (48 + n)

/-- Zero-padded two-digit numeral of `n < 100`. -/
def pad2 (n : Nat) : Str := [dchar (n / 10), dchar (n % 10)]

theorem dchar_toNat {k : Nat} (h : k < 10) : (dchar k).toNat = 48 + k := by
  interval_cases k <;> decide

theorem dchar_digit {k : Nat} (h : k < 10) : isDigitC (dchar k) = true := by
  interval_cases k <;> decide

theorem dchar_not_ws {k : Nat} (h : k < 10) : isWsC (dchar k) = false := by
  interval_cases k <;> decide

theorem dchar_not_sep {k : Nat} (h : k < 10) : ¬(dchar k = '.' ∨ dchar k = '/') := by
  interval_cases k <;> decide

theorem digitsVal_pad2 {a : Nat} (ha : a < 100) : digitsVal (pad2 a) = a := by
  unfold digitsVal pad2
  simp only [List.foldl]
  rw [dchar_toNat (by omega), dchar_toNat (by omega)]
  omega

theorem span_pad2 {a : Nat} (ha : a < 100) {rest : Str}
    (h1 : rest.takeWhile isDigitC = []) (h2 : rest.dropWhile isDigitC = rest) :
    (pad2 a ++ rest).takeWhile isDigitC = pad2 a ∧
    (pad2 a ++ rest).dropWhile isDigitC = rest := by
  have hd1 : isDigitC (dchar (a / 10)) = true := dchar_digit (by omega)
  have hd2 : isDigitC (dchar (a % 10)) = true := dchar_digit (by omega)
  constructor
  · simp [pad2, List.takeWhile_cons, hd1, hd2, h1]
  · simp [pad2, List.dropWhile_cons, hd1, hd2, h2]

theorem span_dash (r : Str) :
    ('-' :: r).takeWhile isDigitC = [] ∧ ('-' :: r).dropWhile isDigitC = '-' :: r := by
  constructor
  · simp [List.takeWhile_cons, show isDigitC '-' = false by decide]
  · simp [List.dropWhile_cons, show isDigitC '-' = false by decide]

theorem readField_d_pad2 {d : Nat} (hd1 : 1 ≤ d) (hd2 : d ≤ 31) {rest : Str}
    (h1 : rest.takeWhile isDigitC = []) (h2 : rest.dropWhile isDigitC = rest) :
    readField .d (pad2 d ++ rest) = some (d, rest) := by
  obtain ⟨ht, hd⟩ := span_pad2 (by omega : d < 100) h1 h2
  unfold readField
  rw [ht, hd]
  dsimp only
  rw [digitsVal_pad2 (by omega)]
  rw [if_neg (by simp [pad2]), if_pos ⟨by simp [pad2], hd1, hd2⟩]

theorem readField_m_pad2 {m : Nat} (hm1 : 1 ≤ m) (hm2 : m ≤ 12) {rest : Str}
    (h1 : rest.takeWhile isDigitC = []) (h2 : rest.dropWhile isDigitC = rest) :
    readField .m (pad2 m ++ rest) = some (m, rest) := by
  obtain ⟨ht, hd⟩ := span_pad2 (by omega : m < 100) h1 h2
  unfold readField
  rw [ht, hd]
  dsimp only
  rw [digitsVal_pad2 (by omega)]
  rw [if_neg (by simp [pad2]), if_pos ⟨by simp [pad2], hm1, hm2⟩]

theorem readField_y2_pad2 {y : Nat} (hy : y ≤ 99) {rest : Str}
    (h1 : rest.takeWhile isDigitC = []) (h2 : rest.dropWhile isDigitC = rest) :
    readField .y2 (pad2 y ++ rest) = some (y, rest) := by
  obtain ⟨ht, hd⟩ := span_pad2 (by omega : y < 100) h1 h2
  unfold readField
  rw [ht, hd]
  dsimp only
  rw [digitsVal_pad2 (by omega)]
  rw [if_pos (by simp [pad2])]

theorem readField_y4_pad2 {a : Nat} (ha : a < 100) {rest : Str}
    (h1 : rest.takeWhile isDigitC = []) (h2 : rest.dropWhile isDigitC = rest) :
    readField .y4 (pad2 a ++ rest) = none := by
  obtain ⟨ht, hd⟩ := span_pad2 ha h1 h2
  unfold readField
  rw [ht, hd]
  dsimp only
  rw [if_neg (by simp [pad2])]

theorem splitWsGo_nows (l : Str) : ∀ (cur : Str) (acc : List Str),
    (∀ c ∈ l, isWsC c = false) →
    splitWsGo cur acc l =
      if l.reverse ++ cur = [] then acc.reverse
      else acc.reverse ++ [(l.reverse ++ cur).reverse] := by
  induction l with
  | nil =>
    intro cur acc _
    unfold splitWsGo
    simp only [List.reverse_nil, List.nil_append]
    by_cases hc : cur = []
    · rw [if_pos hc, if_pos hc]
    · rw [if_neg hc, if_neg hc, List.reverse_cons]
  | cons c r ih =>
    intro cur acc h
    unfold splitWsGo
    rw [h c (by simp)]
    simp only [Bool.false_eq_true, if_false]
    rw [ih (c :: cur) acc (fun x hx => h x (by simp [hx]))]
    have hne : r.reverse ++ (c :: cur) ≠ [] := by simp
    have hne2 : (c :: r).reverse ++ cur ≠ [] := by simp
    rw [if_neg hne, if_neg hne2]
    congr 2
    rw [List.reverse_cons]
    simp [List.append_assoc]

theorem splitWs_nows {l : Str} (h : ∀ c ∈ l, isWsC c = false) (hne : l ≠ []) :
    splitWs l = [l] := by
  unfold splitWs
  rw [splitWsGo_nows l [] [] h]
  rw [if_neg (by simp [hne])]
  simp

theorem posixY2_big (y : Nat) : ¬ posixY2 y < 100 := by
  unfold posixY2
  by_cases h : y ≤ 68
  · rw [if_pos h]; omega
  · rw [if_neg h]; omega

theorem strptime3_dmy {d m y : Nat} (hd1 : 1 ≤ d) (hd2 : d ≤ 31)
    (hm1 : 1 ≤ m) (hm2 : m ≤ 12) (hy : y ≤ 99)
    (hval : validDate (posixY2 y) m d = true) :
    strptime3 .d .m .y2 (fun a b c => (posixY2 c, b, a))
      (pad2 d ++ '-' :: (pad2 m ++ '-' :: pad2 y)) = some ⟨posixY2 y, m, d⟩ := by
  unfold strptime3
  rw [readField_d_pad2 hd1 hd2 (span_dash _).1 (span_dash _).2]
  dsimp only
  rw [if_pos rfl]
  rw [readField_m_pad2 hm1 hm2 (span_dash _).1 (span_dash _).2]
  dsimp only
  rw [if_pos rfl]
  have hy2 := @readField_y2_pad2 y hy [] rfl rfl
  rw [List.append_nil] at hy2
  rw [hy2]
  dsimp only
  rw [if_pos rfl]
  rw [if_pos hval]

theorem strptime3_y4_fail {d : Nat} (hd : d < 100) (k2 k3 : FK)
    (f : Nat → Nat → Nat → Nat × Nat × Nat) (rest : Str) :
    strptime3 .y4 k2 k3 f (pad2 d ++ '-' :: rest) = none := by
  unfold strptime3
  rw [readField_y4_pad2 hd (span_dash _).1 (span_dash _).2]

theorem strptime3_dmY_fail {d m y : Nat} (hd1 : 1 ≤ d) (hd2 : d ≤ 31)
    (hm1 : 1 ≤ m) (hm2 : m ≤ 12) (hy : y ≤ 99) :
    strptime3 .d .m .y4 (fun a b c => (c, b, a))
      (pad2 d ++ '-' :: (pad2 m ++ '-' :: pad2 y)) = none := by
  unfold strptime3
  rw [readField_d_pad2 hd1 hd2 (span_dash _).1 (span_dash _).2]
  dsimp only
  rw [if_pos rfl]
  rw [readField_m_pad2 hm1 hm2 (span_dash _).1 (span_dash _).2]
  dsimp only
  rw [if_pos rfl]
  have hy4 := @readField_y4_pad2 y (by omega : y < 100) [] rfl rfl
  rw [List.append_nil] at hy4
  rw [hy4]

theorem parseCore_dmy {d m y : Nat} (hd1 : 1 ≤ d) (hd2 : d ≤ 31)
    (hm1 : 1 ≤ m) (hm2 : m ≤ 12) (hy : y ≤ 99)
    (hval : validDate (posixY2 y) m d = true) :
    parseCore (pad2 d ++ '-' :: (pad2 m ++ '-' :: pad2 y)) = some ⟨posixY2 y, m, d⟩ := by
  unfold parseCore attemptPat
  rw [strptime3_y4_fail (by omega) _ _ _ _]
  simp only [Option.none_bind]
  rw [strptime3_dmY_fail hd1 hd2 hm1 hm2 hy]
  simp only [Option.none_bind]
  rw [strptime3_dmy hd1 hd2 hm1 hm2 hy hval]
  simp only [Option.some_bind]
  unfold parseHeuristic
  dsimp only
  rw [if_neg (posixY2_big y)]

theorem sepNorm_dashes {d m y : Nat} (hd : d < 100) (hm : m < 100) (hy : y < 100)
    (sep : Char) (hsep : sep = '-' ∨ sep = '/') :
    (pad2 d ++ sep :: (pad2 m ++ sep :: pad2 y)).map
        (fun c => if c = '.' ∨ c = '/' then '-' else c) =
      pad2 d ++ '-' :: (pad2 m ++ '-' :: pad2 y) := by
  have hfix : ∀ k : Nat, k < 10 →
      (if dchar k = '.' ∨ dchar k = '/' then '-' else dchar k) = dchar k := by
    intro k hk
    rw [if_neg (dchar_not_sep hk)]
  have hsepm : (if sep = '.' ∨ sep = '/' then '-' else sep) = '-' := by
    rcases hsep with h | h <;> subst h
    · rw [if_neg (by decide)]
    · rw [if_pos (by decide)]
  simp only [pad2, List.map_append, List.map_cons, List.map_nil, List.cons_append,
    List.nil_append]
  rw [hfix _ (by omega), hfix _ (by omega), hfix _ (by omega), hfix _ (by omega),
    hfix _ (by omega), hfix _ (by omega), hsepm]

theorem pad2_nows {a : Nat} (ha : a < 100) : ∀ c ∈ pad2 a, isWsC c = false := by
  intro c hc
  unfold pad2 at hc
  rcases List.mem_cons.mp hc with h | h
  · rw [h]; exact dchar_not_ws (by omega)
  · rw [List.mem_singleton] at h
    rw [h]; exact dchar_not_ws (by omega)

/-- C5 amended: for every syntactically well-formed `DD-MM-YY` or `DD/MM/YY`
date string whose expansion is a valid calendar date, `_parse_date` expands
the two-digit year by CPython's `strptime` `%y` rule — `00-68 → 2000+YY`,
`69-99 → 1900+YY` — not by the `00-79`/`80-99` split written (unreachably)
in the function body: the `%d-%m-%Y` pattern requires a four-digit year, so
a two-digit year is consumed by `%d-%m-%y`, which expands it before the
`year < 100` heuristic can ever see it. -/
theorem C5_two_digit_year_amended (d m y : Nat) (hd1 : 1 ≤ d) (hd2 : d ≤ 31)
    (hm1 : 1 ≤ m) (hm2 : m ≤ 12) (hy : y ≤ 99)
    (hval : validDate (posixY2 y) m d = true) :
    parseDate (.s (pad2 d ++ '-' :: (pad2 m ++ '-' :: pad2 y))) =
      .ok (some ⟨posixY2 y, m, d⟩)
    ∧ parseDate (.s (pad2 d ++ '/' :: (pad2 m ++ '/' :: pad2 y))) =
      .ok (some ⟨posixY2 y, m, d⟩) := by
  have hnows : ∀ sep : Char, isWsC sep = false →
      ∀ c ∈ pad2 d ++ sep :: (pad2 m ++ sep :: pad2 y), isWsC c = false := by
    intro sep hsep c hc
    rcases List.mem_append.mp hc with h | h
    · exact pad2_nows (by omega) c h
    · rcases List.mem_cons.mp h with h2 | h2
      · rw [h2]; exact hsep
      · rcases List.mem_append.mp h2 with h3 | h3
        · exact pad2_nows (by omega) c h3
        · rcases List.mem_cons.mp h3 with h4 | h4
          · rw [h4]; exact hsep
          · exact pad2_nows (by omega) c h4
  constructor
  · unfold parseDate
    dsimp only
    rw [if_neg (by simp [pad2])]
    rw [splitWs_nows (hnows '-' (by decide)) (by simp [pad2])]
    dsimp only
    rw [sepNorm_dashes (by omega) (by omega) (by omega) '-' (Or.inl rfl)]
    rw [parseCore_dmy hd1 hd2 hm1 hm2 hy hval]
  · unfold parseDate
    dsimp only
    rw [if_neg (by simp [pad2])]
    rw [splitWs_nows (hnows '/' (by decide)) (by simp [pad2])]
    dsimp only
    rw [sepNorm_dashes (by omega) (by omega) (by omega) '/' (Or.inr rfl)]
    rw [parseCore_dmy hd1 hd2 hm1 hm2 hy hval]

/-- C5 counterexample: the string `"01-01-70"` parses to 1970-01-01 (the
`%y` POSIX split at 68/69), while the claimed `00-79 → 20xx` rule would
give 2070-01-01. -/
theorem C5_two_digit_year_counterexample :
    parseDate (.s ['0', '1', '-', '0', '1', '-', '7', '0']) =
      .ok (some ⟨1970, 1, 1⟩)
    ∧ parseDate (.s ['0', '1', '-', '0', '1', '-', '7', '0']) ≠
      .ok (some ⟨2070, 1, 1⟩) := by
  refine ⟨by decide, by decide⟩

/-- C5 witness: the amended rule applied at `24-09-24` (scenario dates of
the spec) giving 2024-09-24. -/
theorem C5_two_digit_year_witness :
    validDate (posixY2 24) 9 24 = true
    ∧ parseDate (.s (pad2 24 ++ '-' :: (pad2 9 ++ '-' :: pad2 24))) =
      .ok (some ⟨posixY2 24, 9, 24⟩) :=
  ⟨by decide,
    (C5_two_digit_year_amended 24 9 24 (by decide) (by decide) (by decide) (by decide)
      (by decide) (by decide)).1⟩

/-! ### C2/C10: propose_matches -/

theorem propose_foldl_acc (fr : Str → Str → ℚ) (E : List Expense) :
    ∀ (R : List Receipt) (acc : List Proposal),
    R.foldl
      (fun acc r =>
        if skipReceipt r then acc
        else
          match bestFor fr r E with
          | none => acc
          | some b => acc ++ [⟨r.id, b.2, round4 b.1⟩]) acc =
    acc ++ R.filterMap (fun r =>
      if skipReceipt r then none
      else (bestFor fr r E).map (fun b => ⟨r.id, b.2, round4 b.1⟩)) := by
  intro R
  induction R with
  | nil => intro acc; simp
  | cons r R' ih =>
    intro acc
    rw [List.foldl_cons, List.filterMap_cons, ih]
    by_cases hs : skipReceipt r = true
    · rw [if_pos hs, if_pos hs]
    · rw [if_neg hs, if_neg hs]
      cases hb : bestFor fr r E with
      | none => simp
      | some b => simp

theorem propose_matches_eq_filterMap (fr : Str → Str → ℚ) (E : List Expense)
    (R : List Receipt) :
    propose_matches fr E R =
      R.filterMap (fun r =>
        if skipReceipt r then none
        else (bestFor fr r E).map (fun b => ⟨r.id, b.2, round4 b.1⟩)) := by
  unfold propose_matches
  rw [propose_foldl_acc]
  simp

theorem bestFold_inv (fr : Str → Str → ℚ) (r : Receipt) :
    ∀ (L : List Expense) (sb : ℚ) (ib : Int),
    (L.foldl (bestStep fr r) (some (sb, ib)) = some (sb, ib) ∧
      ∀ e ∈ L, (score_match fr e r).1 ≤ sb)
    ∨ (∃ L1 eb L2, L = L1 ++ eb :: L2 ∧
        L.foldl (bestStep fr r) (some (sb, ib)) =
          some ((score_match fr eb r).1, eb.id) ∧
        sb < (score_match fr eb r).1 ∧
        (∀ e ∈ L1, (score_match fr e r).1 < (score_match fr eb r).1) ∧
        (∀ e ∈ L2, (score_match fr e r).1 ≤ (score_match fr eb r).1)) := by
  intro L
  induction L with
  | nil => intro sb ib; left; exact ⟨rfl, by simp⟩
  | cons e L' ih =>
    intro sb ib
    rw [List.foldl_cons]
    by_cases hgt : (score_match fr e r).1 > sb
    · have hstep : bestStep fr r (some (sb, ib)) e = some ((score_match fr e r).1, e.id) := by
        show (if (score_match fr e r).1 > sb then some ((score_match fr e r).1, e.id)
          else some (sb, ib)) = some ((score_match fr e r).1, e.id)
        rw [if_pos hgt]
      rw [hstep]
      rcases ih (score_match fr e r).1 e.id with ⟨hf, hall⟩ | ⟨L1, eb, L2, hL, hf, hlt, h1, h2⟩
      · right
        exact ⟨[], e, L', rfl, hf, hgt, by simp, hall⟩
      · right
        refine ⟨e :: L1, eb, L2, by simp [hL], hf, lt_trans hgt hlt, ?_, h2⟩
        intro x hx
        rcases List.mem_cons.mp hx with h | h
        · rw [h]; exact hlt
        · exact h1 x h
    · have hstep : bestStep fr r (some (sb, ib)) e = some (sb, ib) := by
        show (if (score_match fr e r).1 > sb then some ((score_match fr e r).1, e.id)
          else some (sb, ib)) = some (sb, ib)
        rw [if_neg hgt]
      rw [hstep]
      rcases ih sb ib with ⟨hf, hall⟩ | ⟨L1, eb, L2, hL, hf, hlt, h1, h2⟩
      · left
        refine ⟨hf, ?_⟩
        intro x hx
        rcases List.mem_cons.mp hx with h | h
        · rw [h]; exact not_lt.mp hgt
        · exact hall x h
      · right
        refine ⟨e :: L1, eb, L2, by simp [hL], hf, hlt, ?_, h2⟩
        intro x hx
        rcases List.mem_cons.mp hx with h | h
        · rw [h]; exact lt_of_le_of_lt (not_lt.mp hgt) hlt
        · exact h1 x h

theorem bestFor_first_argmax (fr : Str → Str → ℚ) (r : Receipt)
    (E : List Expense) (hE : E ≠ []) :
    ∃ E1 eb E2, E = E1 ++ eb :: E2 ∧
      bestFor fr r E = some ((score_match fr eb r).1, eb.id) ∧
      (∀ e ∈ E1, (score_match fr e r).1 < (score_match fr eb r).1) ∧
      (∀ e ∈ E2, (score_match fr e r).1 ≤ (score_match fr eb r).1) := by
  cases E with
  | nil => exact absurd rfl hE
  | cons e0 E' =>
    have h0 : bestFor fr r (e0 :: E') =
        E'.foldl (bestStep fr r) (some ((score_match fr e0 r).1, e0.id)) := by
      unfold bestFor
      rw [List.foldl_cons]
      rfl
    rw [h0]
    rcases bestFold_inv fr r E' (score_match fr e0 r).1 e0.id with
      ⟨hf, hall⟩ | ⟨L1, eb, L2, hL, hf, hlt, h1, h2⟩
    · exact ⟨[], e0, E', rfl, hf, by simp, hall⟩
    · refine ⟨e0 :: L1, eb, L2, by subst hL; rfl, hf, ?_, h2⟩
      intro x hx
      rcases List.mem_cons.mp hx with h | h
      · rw [h]; exact hlt
      · exact h1 x h

/-- C2: `propose_matches` emits exactly one proposal per non-skipped
receipt, in receipt order (the `filterMap` form); an empty expense list
yields no proposals; and each proposal's expense is the first expense
attaining the maximum `score_match` score — all earlier expenses score
strictly less, all later ones at most as much. -/
theorem C2_propose_matches_greedy (fr : Str → Str → ℚ) (E : List Expense)
    (R : List Receipt) :
    propose_matches fr E R =
      R.filterMap (fun r =>
        if skipReceipt r then none
        else (bestFor fr r E).map (fun b => ⟨r.id, b.2, round4 b.1⟩))
    ∧ (E = [] → propose_matches fr E R = [])
    ∧ (E ≠ [] → ∀ r : Receipt,
        ∃ E1 eb E2, E = E1 ++ eb :: E2 ∧
          bestFor fr r E = some ((score_match fr eb r).1, eb.id) ∧
          (∀ e ∈ E1, (score_match fr e r).1 < (score_match fr eb r).1) ∧
          (∀ e ∈ E2, (score_match fr e r).1 ≤ (score_match fr eb r).1)) := by
  refine ⟨propose_matches_eq_filterMap fr E R, ?_, ?_⟩
  · intro hE
    subst hE
    rw [propose_matches_eq_filterMap]
    have : ∀ r : Receipt,
        (if skipReceipt r then none
          else (bestFor fr r ([] : List Expense)).map
            (fun b => (⟨r.id, b.2, round4 b.1⟩ : Proposal))) = none := by
      intro r
      by_cases hs : skipReceipt r = true
      · rw [if_pos hs]
      · rw [if_neg hs]
        rfl
    rw [List.filterMap_eq_nil]
    intro r _
    exact this r
  · intro hE r
    exact bestFor_first_argmax fr r E hE

/-- Concrete rows for the C2 and C10 witnesses. -/
def expense0 : Expense := ⟨7, none, none, none⟩

/-- A receipt whose only populated extraction field is a zero amount. -/
def receipt0 : Receipt := ⟨3, none, none, some 0, none, none, none, none, none⟩

/-- C2 witness: the greedy-selection shape applied to a one-expense list
and one receipt. -/
theorem C2_propose_matches_witness :
    ([expense0] : List Expense) ≠ []
    ∧ (∃ E1 eb E2, ([expense0] : List Expense) = E1 ++ eb :: E2 ∧
        bestFor (fun _ _ => 0) receipt0 [expense0] =
          some ((score_match (fun _ _ => 0) eb receipt0).1, eb.id) ∧
        (∀ e ∈ E1, (score_match (fun _ _ => 0) e receipt0).1 <
          (score_match (fun _ _ => 0) eb receipt0).1) ∧
        (∀ e ∈ E2, (score_match (fun _ _ => 0) e receipt0).1 ≤
          (score_match (fun _ _ => 0) eb receipt0).1)) :=
  ⟨by simp,
    (C2_propose_matches_greedy (fun _ _ => 0) [expense0] [receipt0]).2.2
      (by simp) receipt0⟩

/-- C10: the insufficient-signal skip treats an extracted amount of exactly
0 as present (`is None` check), so a receipt with no merchant, no vendor, no
error and amount 0 is still scored, and every non-empty expense list yields
a proposal for it. -/
theorem C10_zero_amount_scored (fr : Str → Str → ℚ) (r : Receipt)
    (h1 : truthyStr r.extracted_merchant = false)
    (h2 : truthyStr r.extracted_vendor_name = false)
    (h3 : truthyStr r.error_message = false)
    (h4 : (statusStr r).take 6 ≠ "error_".toList)
    (h5 : r.extracted_amount = some 0) :
    skipReceipt r = false
    ∧ ∀ E : List Expense, E ≠ [] → (propose_matches fr E [r]).length = 1 := by
  have hskip : skipReceipt r = false := by
    have h4b : ¬ List.take 6 (statusStr r) = ['e', 'r', 'r', 'o', 'r', '_'] := by
      intro hcon
      exact h4 (by rw [hcon]; rfl)
    unfold skipReceipt errSkip insuffSkip
    rw [h1, h2, h3, h5]
    simp [h4b]
  refine ⟨hskip, ?_⟩
  intro E hE
  rw [propose_matches_eq_filterMap]
  obtain ⟨E1, eb, E2, _, hbest, _, _⟩ := bestFor_first_argmax fr r E hE
  rw [List.filterMap_cons]
  rw [if_neg (by rw [hskip]; simp), hbest]
  simp

/-- C10 witness: the concrete receipt with amount 0 and a singleton expense
list. -/
theorem C10_zero_amount_witness :
    truthyStr receipt0.extracted_merchant = false
    ∧ receipt0.extracted_amount = some 0
    ∧ skipReceipt receipt0 = false
    ∧ (propose_matches (fun _ _ => 0) [expense0] [receipt0]).length = 1 :=
  ⟨rfl, rfl,
    (C10_zero_amount_scored (fun _ _ => 0) receipt0 rfl rfl rfl (by decide) rfl).1,
    (C10_zero_amount_scored (fun _ _ => 0) receipt0 rfl rfl rfl (by decide) rfl).2
      [expense0] (by simp)⟩

/-! ### C4: degraded itemization runs -/

/-- C4: whenever itemization finds no usable line items — no linked
receipts, empty provider text, a truthy JSON error envelope, unparsable or
non-array JSON, or every candidate dropped during normalization — the run
returns a result with an empty item list and a warning or error field, and
the stored line items are unchanged (nothing is persisted). -/
theorem C4_no_usable_items_no_persist (total : ℚ) (hasLinks : Bool) (raw : Str)
    (stored : List NormItem)
    (hcase :
      hasLinks = false
      ∨ raw = []
      ∨ (∃ kv, jsonLoads raw = some (.obj kv) ∧
          jTruthyOpt (pyGetV kv "error".toList) = true ∧
          raw ≠ [] ∧ (trimWs raw).take 1 = ['{'] ∧
          containsSub "\"error\"".toList (raw.take 120) = true)
      ∨ jsonLoads (cleanFences raw) = none
      ∨ (∃ v, jsonLoads (cleanFences raw) = some v ∧ ∀ l, v ≠ JVal.arr l)
      ∨ normalizeItems 0 (match jsonLoads (cleanFences raw) with
          | some (JVal.arr l) => l
          | _ => []) = []) :
    (itemizeCore total hasLinks raw stored).1 = stored
    ∧ (itemizeCore total hasLinks raw stored).2.items = []
    ∧ ((itemizeCore total hasLinks raw stored).2.warning.isSome
        ∨ (itemizeCore total hasLinks raw stored).2.error.isSome) := by
  cases hasLinks with
  | false =>
    unfold itemizeCore
    exact ⟨rfl, rfl, Or.inl rfl⟩
  | true =>
    cases henv : envelopeErr raw with
    | some payload =>
      unfold itemizeCore
      rw [henv]
      exact ⟨rfl, rfl, Or.inr rfl⟩
    | none =>
      by_cases hraw : raw = []
      · unfold itemizeCore
        rw [henv, if_pos hraw]
        exact ⟨rfl, rfl, Or.inl rfl⟩
      · by_cases hnorm : (normalizeItems 0 (match jsonLoads (cleanFences raw) with
            | some (JVal.arr l) => l
            | _ => [])).isEmpty = true
        · unfold itemizeCore
          rw [henv, if_neg hraw]
          dsimp only
          rw [if_pos hnorm]
          exact ⟨rfl, rfl, Or.inl rfl⟩
        · exfalso
          rcases hcase with h | h | h | h | h | h
          · cases h
          · exact hraw h
          · obtain ⟨kv, hload, htr, hne, htake, hcont⟩ := h
            have : envelopeErr raw = some (.obj kv) := by
              unfold envelopeErr
              rw [if_pos ⟨hne, htake, hcont⟩, hload]
              dsimp only
              rw [if_pos htr]
            rw [henv] at this
            cases this
          · apply hnorm
            rw [h]
            rfl
          · obtain ⟨v, hload, hnarr⟩ := h
            apply hnorm
            rw [hload]
            cases v with
            | arr l => exact absurd rfl (hnarr l)
            | null => rfl
            | bool b => rfl
            | num q => rfl
            | str s => rfl
            | obj f => rfl
          · exact hnorm (by rw [h]; rfl)

/-- C4 witness: a run with linked receipts but empty provider text (the
provider-failure outcome). -/
theorem C4_no_usable_items_witness :
    (([] : Str) = [] ∨ True)
    ∧ (itemizeCore 100 true [] []).1 = []
    ∧ (itemizeCore 100 true [] []).2.items = []
    ∧ ((itemizeCore 100 true [] []).2.warning.isSome
        ∨ (itemizeCore 100 true [] []).2.error.isSome) := by
  have h := C4_no_usable_items_no_persist 100 true [] [] (Or.inr (Or.inl rfl))
  exact ⟨Or.inl rfl, h.1, h.2.1, h.2.2⟩
